import Mathlib

/-!
# Port resolution engine (`toolsrc/src/vcpkg/portfileprovider.cpp`)

A shallow embedding of the port file providers of vcpkg:

* `PathsPortFileProvider` (overlay directories first, then the registry, with a
  per-name cache), with `try_load_overlay_port` and `try_load_registry_port`;
* `BaselineProviderImpl` (baseline map, or fallback on the live port);
* `VersionedPortfileProviderImpl` (version index, git tree cache, control cache).

The collaborators the file only calls (filesystem, `Paragraphs`, registries,
version-database parser, git checkout, feature-flag check) are the fields of
`VcpkgPaths`: a fixed snapshot, as the providers hold it by `const` reference.
Every function returns an `Outcome`: process termination (`Checks::exit_*`), an
uncaught C++ exception, or a value together with the list of collaborator calls
it made, in order.
-/

namespace vcpkg

/-! # Part 1: the embedding, and the terms the claims are stated in -/

/-! ## Data model -/

/-- A filesystem path (`fs::path`), kept as its UTF-8 text. -/
abbrev Path := String

/-- The operator `/` of `fs::path` for a relative right-hand side. -/
def Path.join (a b : Path) : Path := a ++ "/" ++ b

/-- The version of a port: version text and port revision (`VersionT`). -/
structure VersionT where
  text : String
  port_version : Int
deriving DecidableEq, Repr

/-- The core paragraph of a control file; only the fields the providers read. -/
structure SourceParagraph where
  name : String
  version : String
  port_version : Int
deriving DecidableEq, Repr

/-- A parsed control file (`SourceControlFile`). -/
structure SourceControlFile where
  core_paragraph : SourceParagraph
deriving DecidableEq, Repr

/-- A control file with the directory it was loaded from. -/
structure SourceControlFileLocation where
  source_control_file : SourceControlFile
  source_location : Path
deriving DecidableEq, Repr

/-- The key of historical lookups: port name and version. -/
structure VersionSpec where
  port_name : String
  version : VersionT
deriving DecidableEq, Repr

/-- One entry of a version-database file: a version and its git tree. -/
structure VersionDbEntry where
  version : VersionT
  git_tree : String
deriving DecidableEq, Repr

/-- The value or error string of `ExpectedS<T>`. -/
abbrev ExpectedS (α : Type) := Except String α

/-! ## Associative containers

`std::unordered_map` and `std::map` as association lists with unique keys:
`find` is `map.find`, `emplace` is `map.emplace` (which keeps an existing
element), `push_back` is `map[k].push_back(x)`.
-/

/-- An association list standing for a C++ map. -/
abbrev Map (κ ν : Type) := List (κ × ν)

/-- The element stored under `k`, as `m.find(k)` gives it. -/
def Map.find {κ ν : Type} [DecidableEq κ] (k : κ) : Map κ ν → Option ν
  | [] => none
  | (k', v) :: m => if k' = k then some v else Map.find k m

/-- The map after `m.emplace(k, v)` and the element its returned iterator points to. -/
def Map.emplace {κ ν : Type} [DecidableEq κ] (m : Map κ ν) (k : κ) (v : ν) : Map κ ν × ν :=
  match Map.find k m with
  | some v' => (m, v')
  | none => (m ++ [(k, v)], v)

/-- The map after `m[k].push_back(x)`: `operator[]` creates an empty vector when
`k` is absent. -/
def Map.push_back {κ ν : Type} [DecidableEq κ] (k : κ) (x : ν) : Map κ (List ν) → Map κ (List ν)
  | [] => [(k, [x])]
  | (k', l) :: m => if k' = k then (k', l ++ [x]) :: m else (k', l) :: Map.push_back k x m

/-! ## Outcomes and collaborator calls -/

/-- How a call ends: the process exits (`Checks::exit_with_message`,
`Checks::check_exit`, `value_or_exit`), a C++ exception leaves the function, or
the function returns. -/
inductive Outcome (α : Type) where
  | exit (msg : String)
  | threw (what : String)
  | done (a : α)
deriving DecidableEq, Repr

/-- A call to a collaborator outside this file. -/
inductive Call where
  | fs_exists (p : Path)
  | fs_canonical (p : Path)
  | fs_is_directory (p : Path)
  | is_port_directory (p : Path)
  | try_load_port (p : Path)
  | load_overlay_ports (p : Path)
  | load_all_registry_ports
  | registry_for_port (spec : String)
  | registry_get_baseline_version (spec : String)
  | registry_get_port_entry (spec : String)
  | entry_get_port_directory (spec : String) (v : VersionT)
  | check_against_feature_flags (loc : SourceControlFileLocation)
  | parse_versions_file (port_name : String) (p : Path)
  | parse_baseline_file (p : Path)
  | git_checkout_port (port_name : String) (git_tree : String)
  | git_checkout_baseline (commit_sha : String)
deriving DecidableEq, Repr

/-- A computation that may end the process, and otherwise returns a value and
the collaborator calls it made, in order. -/
abbrev Eff (α : Type) := Outcome (α × List Call)

/-- Returning without any call. -/
def Eff.pure {α : Type} (a : α) : Eff α := .done (a, [])

/-- Sequencing: the calls of the second part follow those of the first. -/
def Eff.bind {α β : Type} (x : Eff α) (f : α → Eff β) : Eff β :=
  match x with
  | .exit m => .exit m
  | .threw w => .threw w
  | .done (a, l) =>
    match f a with
    | .exit m => .exit m
    | .threw w => .threw w
    | .done (b, l') => .done (b, l ++ l')

instance : Monad Eff where
  pure := Eff.pure
  bind := Eff.bind

/-- One collaborator call `c` answering `r`. -/
def call {α : Type} (c : Call) (r : α) : Eff α := .done (r, [c])

/-- One collaborator call that may itself end the process. -/
def callOutcome {α : Type} (c : Call) (r : Outcome α) : Eff α :=
  match r with
  | .exit m => .exit m
  | .threw w => .threw w
  | .done a => .done (a, [c])

/-- The function `Checks::exit_with_message`. -/
def exit_with_message {α : Type} (msg : String) : Eff α := .exit msg

/-- The function `Checks::check_exit`: exits unless the condition holds. -/
def check_exit (cond : Bool) (msg : String) : Eff Unit :=
  if cond then Eff.pure () else .exit msg

/-! ## The collaborators -/

/-- A registry's entry for one port (`RegistryEntry`). -/
structure RegistryEntry where
  get_port_directory : VersionT → Path

/-- A registry (`RegistryImplementation`). -/
structure RegistryImpl where
  get_baseline_version : String → Option VersionT
  get_port_entry : String → Option RegistryEntry

/-- The paths, configuration and filesystem snapshot the providers are bound to
(`VcpkgPaths` with its `Files::Filesystem`, registry set and feature flags), and
the functions of other translation units that take it. -/
structure VcpkgPaths where
  root : Path
  original_cwd : Path
  /-- the predicate `fs::path::is_absolute` -/
  is_absolute : Path → Bool
  /-- the call `fs.canonical(VCPKG_LINE_INFO, p)`; `none` when it reports an error -/
  canonical : Path → Option Path
  /-- the call `fs.exists(p)` -/
  fs_exists : Path → Bool
  /-- the call `fs::is_directory(fs.status(VCPKG_LINE_INFO, p))` -/
  is_directory : Path → Bool
  /-- the function `Paragraphs::is_port_directory` -/
  is_port_directory : Path → Bool
  /-- the function `Paragraphs::try_load_port` -/
  try_load_port : Path → ExpectedS SourceControlFile
  /-- the function `Paragraphs::load_overlay_ports`, which may exit on a malformed port -/
  load_overlay_ports : Path → Outcome (List SourceControlFileLocation)
  /-- the function `Paragraphs::load_all_registry_ports`, which may exit on a malformed port -/
  load_all_registry_ports : Outcome (List SourceControlFileLocation)
  /-- the call `get_configuration().registry_set.registry_for_port(spec)` -/
  registry_for_port : String → Option RegistryImpl
  /-- the call `scf.check_against_feature_flags(location, get_feature_flags())` -/
  check_against_feature_flags : SourceControlFile → Path → Option String
  /-- the function `parse_versions_file` -/
  parse_versions_file : String → Path → ExpectedS (List VersionDbEntry)
  /-- the function `parse_baseline_file` for the baseline named `default` -/
  parse_baseline_file : Path → Option (Map String VersionT)
  /-- the call `paths.git_checkout_port(fs, port_name, git_tree)` -/
  git_checkout_port : String → String → Path
  /-- the call `paths.git_checkout_baseline(fs, commit_sha)` -/
  git_checkout_baseline : String → Path
  /-- the text of a version in a message (`VersionT::to_string`) -/
  version_to_string : VersionT → String

/-! ## `PathsPortFileProvider` -/

/-- The provider's members: the canonical overlay directories and the cache
(`paths` is passed to each method). -/
structure PathsPortFileProvider where
  overlay_ports : List Path
  cache : Map String SourceControlFileLocation
deriving DecidableEq, Repr

/-- The constructor's loop over `overlay_ports_`, with the overlays accepted so far. -/
def PathsPortFileProvider.construct_loop (paths : VcpkgPaths) :
    List String → List Path → Eff (List Path)
  | [], overlay_ports => Eff.pure overlay_ports
  | overlay_path :: rest, overlay_ports =>
    if overlay_path ≠ "" then
      let overlay : Path := overlay_path
      let arg := if paths.is_absolute overlay then overlay else Path.join paths.original_cwd overlay
      Eff.bind (call (Call.fs_canonical arg) (paths.canonical arg)) fun r =>
      match r with
      | none => exit_with_message ("Error: canonical failed for " ++ arg)
      | some overlay =>
        Eff.bind (call (Call.fs_exists overlay) (paths.fs_exists overlay)) fun ex =>
        Eff.bind (check_exit ex ("Error: Path \"" ++ overlay ++ "\" does not exist")) fun _ =>
        Eff.bind (call (Call.fs_is_directory overlay) (paths.is_directory overlay)) fun isdir =>
        Eff.bind (check_exit isdir ("Error: Path \"" ++ overlay ++ "\" must be a directory")) fun _ =>
        PathsPortFileProvider.construct_loop paths rest (overlay_ports ++ [overlay])
    else
      PathsPortFileProvider.construct_loop paths rest overlay_ports

/-- The constructor `PathsPortFileProvider::PathsPortFileProvider`. -/
def PathsPortFileProvider.construct (paths : VcpkgPaths) (overlay_ports_ : List String) :
    Eff PathsPortFileProvider :=
  Eff.bind (PathsPortFileProvider.construct_loop paths overlay_ports_ []) fun overlay_ports =>
  Eff.pure { overlay_ports := overlay_ports, cache := [] }

/-- The function `try_load_overlay_port`: the first overlay entry giving a port
named `spec`. -/
def try_load_overlay_port (paths : VcpkgPaths) (spec : String) :
    List Path → Eff (Option SourceControlFileLocation)
  | [] => Eff.pure none
  | ports_dir :: rest =>
    -- Try loading individual port
    Eff.bind (call (Call.is_port_directory ports_dir) (paths.is_port_directory ports_dir)) fun single =>
    if single then
      Eff.bind (call (Call.try_load_port ports_dir) (paths.try_load_port ports_dir)) fun maybe_scf =>
      match maybe_scf with
      | .ok scf =>
        if scf.core_paragraph.name = spec then
          Eff.pure (some { source_control_file := scf, source_location := ports_dir })
        else
          try_load_overlay_port paths spec rest
      | .error _ =>
        exit_with_message ("Error: Failed to load port " ++ spec ++ " from " ++ ports_dir)
    else
      let ports_spec := Path.join ports_dir spec
      Eff.bind (call (Call.is_port_directory ports_spec) (paths.is_port_directory ports_spec)) fun sub =>
      if sub then
        Eff.bind (call (Call.try_load_port ports_spec) (paths.try_load_port ports_spec)) fun found_scf =>
        match found_scf with
        | .ok scf =>
          if scf.core_paragraph.name = spec then
            Eff.pure (some { source_control_file := scf, source_location := ports_spec })
          else
            exit_with_message ("Error: Failed to load port from " ++ ports_spec ++
              ": names did not match: '" ++ spec ++ "' != '" ++ scf.core_paragraph.name ++ "'")
        | .error _ =>
          exit_with_message ("Error: Failed to load port " ++ spec ++ " from " ++ ports_dir)
      else
        try_load_overlay_port paths spec rest

/-- The function `try_load_registry_port`: the port of the registry's baseline
version of `spec`. -/
def try_load_registry_port (paths : VcpkgPaths) (spec : String) :
    Eff (Option SourceControlFileLocation) :=
  Eff.bind (call (Call.registry_for_port spec) (paths.registry_for_port spec)) fun maybe_registry =>
  match maybe_registry with
  | some registry =>
    Eff.bind (call (Call.registry_get_baseline_version spec) (registry.get_baseline_version spec))
      fun baseline_version =>
    Eff.bind (call (Call.registry_get_port_entry spec) (registry.get_port_entry spec)) fun entry =>
    match entry, baseline_version with
    | some entry, some baseline_version =>
      Eff.bind (call (Call.entry_get_port_directory spec baseline_version)
        (entry.get_port_directory baseline_version)) fun port_directory =>
      if port_directory = "" then
        exit_with_message ("Error: registry is incorrect. Baseline version for port `" ++ spec ++
          "` is `" ++ paths.version_to_string baseline_version ++
          "`, but that version is not in the registry.\n")
      else
        Eff.bind (call (Call.try_load_port port_directory) (paths.try_load_port port_directory))
          fun found_scf =>
        match found_scf with
        | .ok scf =>
          if scf.core_paragraph.name = spec then
            Eff.pure (some { source_control_file := scf, source_location := port_directory })
          else
            exit_with_message ("Error: Failed to load port from " ++ port_directory ++
              ": names did not match: '" ++ spec ++ "' != '" ++ scf.core_paragraph.name ++ "'")
        | .error _ =>
          exit_with_message ("Error: Failed to load port " ++ spec ++ " from " ++ port_directory)
    | _, _ => Eff.pure none
  | none => Eff.pure none

/-- The method `PathsPortFileProvider::get_control_file`: the result and the
provider afterwards. -/
def PathsPortFileProvider.get_control_file (paths : VcpkgPaths) (self : PathsPortFileProvider)
    (spec : String) : Eff (ExpectedS SourceControlFileLocation × PathsPortFileProvider) :=
  match Map.find spec self.cache with
  | some cached => Eff.pure (.ok cached, self)
  | none =>
    Eff.bind (try_load_overlay_port paths spec self.overlay_ports) fun maybe_port =>
    Eff.bind (match maybe_port with
      | some p => Eff.pure (some p)
      | none => try_load_registry_port paths spec) fun maybe_port =>
    match maybe_port with
    | some p =>
      Eff.bind (call (Call.check_against_feature_flags p)
        (paths.check_against_feature_flags p.source_control_file p.source_location)) fun maybe_error =>
      match maybe_error with
      | some error => Eff.pure (.error error, self)
      | none =>
        let r := Map.emplace self.cache spec p
        Eff.pure (.ok r.2, { self with cache := r.1 })
    | none => Eff.pure (.error "Port definition not found", self)

/-- The body shared by the three loops of `load_all_control_files`: a port whose
declared name is not yet a key of the cache is cached and appended to `ret`. -/
def load_all_add (acc : Map String SourceControlFileLocation × List SourceControlFileLocation)
    (scfl : SourceControlFileLocation) :
    Map String SourceControlFileLocation × List SourceControlFileLocation :=
  let port_name := scfl.source_control_file.core_paragraph.name
  match Map.find port_name acc.1 with
  | none =>
    let r := Map.emplace acc.1 port_name scfl
    (r.1, acc.2 ++ [r.2])
  | some _ => acc

/-- The loop of `load_all_control_files` over the overlay directories. -/
def load_all_overlays (paths : VcpkgPaths) :
    List Path → Map String SourceControlFileLocation × List SourceControlFileLocation →
    Eff (Map String SourceControlFileLocation × List SourceControlFileLocation)
  | [], acc => Eff.pure acc
  | ports_dir :: rest, acc =>
    -- Try loading individual port
    Eff.bind (call (Call.is_port_directory ports_dir) (paths.is_port_directory ports_dir)) fun single =>
    if single then
      Eff.bind (call (Call.try_load_port ports_dir) (paths.try_load_port ports_dir)) fun maybe_scf =>
      match maybe_scf with
      | .ok scf =>
        load_all_overlays paths rest
          (load_all_add acc { source_control_file := scf, source_location := ports_dir })
      | .error _ => exit_with_message ("Error: Failed to load port from " ++ ports_dir)
    else
      -- Try loading all ports inside ports_dir
      Eff.bind (callOutcome (Call.load_overlay_ports ports_dir) (paths.load_overlay_ports ports_dir))
        fun found_scfls =>
      load_all_overlays paths rest (found_scfls.foldl load_all_add acc)

/-- The method `PathsPortFileProvider::load_all_control_files`: the returned
entries (each the cache element its pointer designates) and the provider
afterwards. -/
def PathsPortFileProvider.load_all_control_files (paths : VcpkgPaths) (self : PathsPortFileProvider) :
    Eff (List SourceControlFileLocation × PathsPortFileProvider) :=
  -- Reload cache with ports contained in all ports_dirs
  Eff.bind (load_all_overlays paths self.overlay_ports ([], [])) fun acc =>
  Eff.bind (callOutcome Call.load_all_registry_ports paths.load_all_registry_ports) fun all_ports =>
  let acc := all_ports.foldl load_all_add acc
  Eff.pure (acc.2, { self with cache := acc.1 })

/-! ## Version-database and baseline paths -/

/-- The first character of a port name with a dash (`port_name.substr(0, 1)` and `"-"`);
port names are ASCII identifiers. -/
def versions_shard (port_name : String) : String := String.mk (port_name.data.take 1) ++ "-"

/-- The path of a port's version database: under `root/port_versions`, the shard
directory of the name's first character, then the file `port_name.json`. -/
def versions_json_path (paths : VcpkgPaths) (port_name : String) : Path :=
  Path.join (Path.join (Path.join paths.root "port_versions")
    (versions_shard port_name)) (port_name ++ ".json")

/-- The function `get_versions_json_path`: the version-database file of a port,
if it exists. -/
def get_versions_json_path (paths : VcpkgPaths) (port_name : String) : Eff (ExpectedS Path) :=
  let json_path := versions_json_path paths port_name
  Eff.bind (call (Call.fs_exists json_path) (paths.fs_exists json_path)) fun ex =>
  if ex then Eff.pure (.ok json_path)
  else Eff.pure (.error ("Error: Versions database file does not exist: " ++ json_path))

/-- The function `get_baseline_json_path`: the baseline file checked out at a
commit, if it exists. -/
def get_baseline_json_path (paths : VcpkgPaths) (baseline_commit_sha : String) :
    Eff (ExpectedS Path) :=
  Eff.bind (call (Call.git_checkout_baseline baseline_commit_sha)
    (paths.git_checkout_baseline baseline_commit_sha)) fun baseline_path =>
  Eff.bind (call (Call.fs_exists baseline_path) (paths.fs_exists baseline_path)) fun ex =>
  if ex then Eff.pure (.ok baseline_path)
  else Eff.pure (.error ("Error: Baseline database file does not exist: " ++ baseline_path))

/-! ## `BaselineProviderImpl` -/

/-- The provider's members. `baseline_cache` is the `Lazy` slot: `none` until the
first use, then the computed optional map. `m_portfile_provider` is the
`unique_ptr`, `none` while null. -/
structure BaselineProviderImpl where
  m_baseline : Option String
  baseline_cache : Option (Option (Map String VersionT))
  m_portfile_provider : Option PathsPortFileProvider
deriving DecidableEq, Repr

/-- The constructor `BaselineProviderImpl(paths)`. -/
def BaselineProviderImpl.construct : BaselineProviderImpl :=
  { m_baseline := none, baseline_cache := none, m_portfile_provider := none }

/-- The constructor `BaselineProviderImpl(paths, baseline)`. -/
def BaselineProviderImpl.construct_with (baseline : String) : BaselineProviderImpl :=
  { m_baseline := some baseline, baseline_cache := none, m_portfile_provider := none }

/-- The check and parse both branches of the lazy computation apply to a baseline file. -/
def parse_baseline_or_exit (paths : VcpkgPaths) (baseline_file : Path) :
    Eff (Map String VersionT) :=
  Eff.bind (call (Call.parse_baseline_file baseline_file) (paths.parse_baseline_file baseline_file))
    fun maybe_baselines_map =>
  match maybe_baselines_map with
  | some baselines_map => Eff.pure baselines_map
  | none => exit_with_message ("Error: Couldn't parse baseline `default` from `" ++ baseline_file ++ "`")

/-- The baseline file of the current repository, `root/port_versions/baseline.json`. -/
def local_baseline_file (paths : VcpkgPaths) : Path :=
  Path.join (Path.join paths.root "port_versions") "baseline.json"

/-- The method `BaselineProviderImpl::get_baseline_cache`: `get_lazy` runs the
computation on the first use only. -/
def BaselineProviderImpl.get_baseline_cache (paths : VcpkgPaths) (self : BaselineProviderImpl) :
    Eff (Option (Map String VersionT) × BaselineProviderImpl) :=
  match self.baseline_cache with
  | some value => Eff.pure (value, self)
  | none =>
    match self.m_baseline with
    | some baseline =>
      Eff.bind (get_baseline_json_path paths baseline) fun maybe_file =>
      match maybe_file with
      | .error msg => exit_with_message msg
      | .ok baseline_file =>
        Eff.bind (parse_baseline_or_exit paths baseline_file) fun baselines_map =>
        Eff.pure (some baselines_map, { self with baseline_cache := some (some baselines_map) })
    | none =>
      -- No baseline was provided, so use current repo
      let baseline_file := local_baseline_file paths
      Eff.bind (call (Call.fs_exists baseline_file) (paths.fs_exists baseline_file)) fun ex =>
      if ex then
        Eff.bind (parse_baseline_or_exit paths baseline_file) fun baselines_map =>
        Eff.pure (some baselines_map, { self with baseline_cache := some (some baselines_map) })
      else
        -- No baseline file in current repo -- use current port versions.
        Eff.bind (PathsPortFileProvider.construct paths []) fun provider =>
        Eff.pure (none, { self with baseline_cache := some none, m_portfile_provider := some provider })

/-- The method `BaselineProviderImpl::get_baseline_version`. -/
def BaselineProviderImpl.get_baseline_version (paths : VcpkgPaths) (self : BaselineProviderImpl)
    (port_name : String) : Eff (Option VersionT × BaselineProviderImpl) :=
  Eff.bind (BaselineProviderImpl.get_baseline_cache paths self) fun r =>
  let self := r.2
  match r.1 with
  | some p_cache => Eff.pure (Map.find port_name p_cache, self)
  | none =>
    match self.m_portfile_provider with
    | none => .threw "m_portfile_provider is null"
    | some provider =>
      Eff.bind (PathsPortFileProvider.get_control_file paths provider port_name) fun g =>
      let self := { self with m_portfile_provider := some g.2 }
      match g.1 with
      | .ok p_scfl =>
        let cpgh := p_scfl.source_control_file.core_paragraph
        Eff.pure (some { text := cpgh.version, port_version := cpgh.port_version }, self)
      | .error _ => Eff.pure (none, self)

/-! ## `VersionedPortfileProviderImpl` -/

/-- The provider's three caches. -/
structure VersionedPortfileProviderImpl where
  versions_cache : Map String (List VersionSpec)
  git_tree_cache : Map VersionSpec String
  control_cache : Map VersionSpec SourceControlFileLocation
deriving DecidableEq, Repr

/-- The constructor `VersionedPortfileProviderImpl(paths)`: empty caches. -/
def VersionedPortfileProviderImpl.construct : VersionedPortfileProviderImpl :=
  { versions_cache := [], git_tree_cache := [], control_cache := [] }

/-- The loop body of `get_port_versions` for one entry of the version database. -/
def add_version_entry (port : String) (self : VersionedPortfileProviderImpl)
    (version_entry : VersionDbEntry) : VersionedPortfileProviderImpl :=
  let spec : VersionSpec := { port_name := port, version := version_entry.version }
  { self with
    versions_cache := Map.push_back port spec self.versions_cache
    git_tree_cache := (Map.emplace self.git_tree_cache spec version_entry.git_tree).1 }

/-- The method `VersionedPortfileProviderImpl::get_port_versions`: the returned
list and the provider afterwards. -/
def VersionedPortfileProviderImpl.get_port_versions (paths : VcpkgPaths)
    (self : VersionedPortfileProviderImpl) (port_name : String) :
    Eff (List VersionSpec × VersionedPortfileProviderImpl) :=
  match Map.find port_name self.versions_cache with
  | some cached => Eff.pure (cached, self)
  | none =>
    Eff.bind (get_versions_json_path paths port_name) fun maybe_versions_file_path =>
    match maybe_versions_file_path with
    | .ok versions_file_path =>
      Eff.bind (call (Call.parse_versions_file port_name versions_file_path)
        (paths.parse_versions_file port_name versions_file_path)) fun maybe_version_entries =>
      match maybe_version_entries with
      | .error _ =>
        exit_with_message ("Error: Couldn't parse versions from file: " ++ versions_file_path)
      | .ok version_entries =>
        let port := port_name
        let self := version_entries.foldl (add_version_entry port) self
        -- versions_cache.at(port)
        match Map.find port self.versions_cache with
        | some versions => Eff.pure (versions, self)
        | none => .threw "std::out_of_range"
    | .error _ =>
      -- Fall back to current available version
      Eff.bind (try_load_registry_port paths port_name) fun maybe_port =>
      match maybe_port with
      | some p =>
        Eff.bind (call (Call.check_against_feature_flags p)
          (paths.check_against_feature_flags p.source_control_file p.source_location))
          fun maybe_error =>
        match maybe_error with
        | some error => exit_with_message ("Error: " ++ error)
        | none =>
          let vspec : VersionSpec :=
            { port_name := port_name
              version := { text := p.source_control_file.core_paragraph.version
                           port_version := p.source_control_file.core_paragraph.port_version } }
          let control_cache := (Map.emplace self.control_cache vspec p).1
          let r := Map.emplace self.versions_cache port_name [vspec]
          Eff.pure (r.2, { self with control_cache := control_cache, versions_cache := r.1 })
      | none =>
        exit_with_message ("Error: Could not find a definition for port " ++ port_name)

/-- The method `VersionedPortfileProviderImpl::get_control_file`: the result and
the provider afterwards. -/
def VersionedPortfileProviderImpl.get_control_file (paths : VcpkgPaths)
    (self : VersionedPortfileProviderImpl) (version_spec : VersionSpec) :
    Eff (ExpectedS SourceControlFileLocation × VersionedPortfileProviderImpl) :=
  -- Pre-populate versions cache.
  Eff.bind (VersionedPortfileProviderImpl.get_port_versions paths self version_spec.port_name)
    fun r =>
  let self := r.2
  match Map.find version_spec self.control_cache with
  | some cached => Eff.pure (.ok cached, self)
  | none =>
    match Map.find version_spec self.git_tree_cache with
    | none =>
      Eff.pure (.error ("Error: No git object SHA for entry " ++ version_spec.port_name ++
        " at version " ++ paths.version_to_string version_spec.version ++ "."), self)
    | some git_tree =>
      Eff.bind (call (Call.git_checkout_port version_spec.port_name git_tree)
        (paths.git_checkout_port version_spec.port_name git_tree)) fun port_directory =>
      Eff.bind (call (Call.try_load_port port_directory) (paths.try_load_port port_directory))
        fun maybe_control_file =>
      match maybe_control_file with
      | .ok scf =>
        if scf.core_paragraph.name = version_spec.port_name then
          let e := Map.emplace self.control_cache version_spec
            { source_control_file := scf, source_location := port_directory }
          Eff.pure (.ok e.2, { self with control_cache := e.1 })
        else
          Eff.pure (.error ("Error: Failed to load port from " ++ port_directory ++
            ": names did not match: '" ++ version_spec.port_name ++ "' != '" ++
            scf.core_paragraph.name ++ "'"), self)
      | .error _ =>
        Eff.pure (.error ("Error: Failed to load port " ++ version_spec.port_name ++ " from " ++
          port_directory), self)

/-! ## What the two loaders return -/

/-- The declared name of a located control file. -/
abbrev SourceControlFileLocation.name (loc : SourceControlFileLocation) : String :=
  loc.source_control_file.core_paragraph.name

/-- Every element of the cache is stored under the name its control file declares. -/
def CacheNamed (cache : Map String SourceControlFileLocation) : Prop :=
  ∀ k v, Map.find k cache = some v → v.name = k

/-- The states of a `PathsPortFileProvider`: the constructed one and those the
two public methods lead to. -/
inductive PathsPortFileProvider.Reachable (paths : VcpkgPaths) : PathsPortFileProvider → Prop where
  | construct (overlay_ports_ : List String) (p : PathsPortFileProvider) (l : List Call) :
      PathsPortFileProvider.construct paths overlay_ports_ = .done (p, l) → Reachable paths p
  | get_control_file (p p' : PathsPortFileProvider) (spec : String)
      (r : ExpectedS SourceControlFileLocation) (l : List Call) :
      Reachable paths p →
      PathsPortFileProvider.get_control_file paths p spec = .done ((r, p'), l) → Reachable paths p'
  | load_all_control_files (p p' : PathsPortFileProvider)
      (ret : List SourceControlFileLocation) (l : List Call) :
      Reachable paths p →
      PathsPortFileProvider.load_all_control_files paths p = .done ((ret, p'), l) →
      Reachable paths p'

/-! ## A concrete snapshot

Two single-port overlay directories (`foo` at version `A`, `zlib` at `1.2`), one
overlay directory of ports holding `foo` and `zlib`, a registry whose baseline gives
`foo` at version `B`, and a version database for `foo` with the single entry
`(1.2.0, port_version 3, tree abc123)`.
-/

/-- A control file with the given name, version text and port revision. -/
def mkScf (name version : String) (port_version : Int) : SourceControlFile :=
  { core_paragraph := { name := name, version := version, port_version := port_version } }

/-- The registry of the snapshot: `foo` at `B`, `bar` at `1.0`. -/
def demoRegistry : RegistryImpl :=
  { get_baseline_version := fun spec =>
      if spec = "foo" then some { text := "B", port_version := 0 }
      else if spec = "bar" then some { text := "1.0", port_version := 0 }
      else none
    get_port_entry := fun spec =>
      if spec = "foo" ∨ spec = "bar" then
        some { get_port_directory := fun _ => "/vcpkg/ports/" ++ spec }
      else none }

/-- The snapshot. -/
def demoPaths : VcpkgPaths :=
  { root := "/vcpkg"
    original_cwd := "/work"
    is_absolute := fun p => p.data.head? = some '/'
    canonical := fun p => if p = "/missing" then none else some p
    fs_exists := fun p =>
      p = "/ov/single" ∨ p = "/ov/multi" ∨ p = "/ov/zlib" ∨
        p = "/vcpkg/port_versions/f-/foo.json"
    is_directory := fun p => p = "/ov/single" ∨ p = "/ov/multi" ∨ p = "/ov/zlib"
    is_port_directory := fun p =>
      p = "/ov/single" ∨ p = "/ov/zlib" ∨ p = "/ov/multi/foo" ∨ p = "/ov/multi/zlib"
    try_load_port := fun p =>
      if p = "/ov/single" then .ok (mkScf "foo" "A" 0)
      else if p = "/ov/zlib" then .ok (mkScf "zlib" "1.2" 0)
      else if p = "/ov/multi/foo" then .ok (mkScf "foo" "A2" 0)
      else if p = "/ov/multi/zlib" then .ok (mkScf "zlib" "1.3" 0)
      else if p = "/vcpkg/ports/foo" then .ok (mkScf "foo" "B" 0)
      else if p = "/vcpkg/ports/bar" then .ok (mkScf "bar" "1.0" 0)
      else if p = "/git/foo/abc123" then .ok (mkScf "foo" "1.2.0" 3)
      else .error "no control file"
    load_overlay_ports := fun p =>
      if p = "/ov/multi" then
        .done [⟨mkScf "foo" "A2" 0, "/ov/multi/foo"⟩, ⟨mkScf "zlib" "1.3" 0, "/ov/multi/zlib"⟩]
      else .done []
    load_all_registry_ports :=
      .done [⟨mkScf "bar" "1.0" 0, "/vcpkg/ports/bar"⟩, ⟨mkScf "foo" "B" 0, "/vcpkg/ports/foo"⟩]
    registry_for_port := fun _ => some demoRegistry
    check_against_feature_flags := fun scf _ =>
      if scf.core_paragraph.name = "zlib" then some "zlib requires the manifests feature flag"
      else none
    parse_versions_file := fun port_name _ =>
      if port_name = "foo" then .ok [⟨⟨"1.2.0", 3⟩, "abc123"⟩] else .error "no versions"
    parse_baseline_file := fun _ => none
    git_checkout_port := fun port_name git_tree => "/git/" ++ port_name ++ "/" ++ git_tree
    git_checkout_baseline := fun sha => "/git/baseline/" ++ sha
    version_to_string := fun v => v.text }

/-- The provider constructed over the two overlay directories of the snapshot. -/
def demoProvider : PathsPortFileProvider :=
  { overlay_ports := ["/ov/single", "/ov/multi"], cache := [] }

/-- The port the overlay directory `/ov/single` holds. -/
def fooOverlay : SourceControlFileLocation := ⟨mkScf "foo" "A" 0, "/ov/single"⟩

/-! ## C2: overlays come before the registry -/

/-- The calls that consult the registry. -/
def Call.is_registry : Call → Bool
  | .registry_for_port _ => true
  | .registry_get_baseline_version _ => true
  | .registry_get_port_entry _ => true
  | .entry_get_port_directory _ _ => true
  | _ => false

/-- The port an overlay entry provides for the name `n`: the entry is a
single-port directory declaring `n`, or a directory of ports containing a port
directory `n` that declares `n`. -/
def overlay_provides (paths : VcpkgPaths) (n : String) (d : Path) :
    Option SourceControlFileLocation :=
  if paths.is_port_directory d then
    match paths.try_load_port d with
    | .ok scf => if scf.core_paragraph.name = n then some ⟨scf, d⟩ else none
    | .error _ => none
  else if paths.is_port_directory (Path.join d n) then
    match paths.try_load_port (Path.join d n) with
    | .ok scf => if scf.core_paragraph.name = n then some ⟨scf, Path.join d n⟩ else none
    | .error _ => none
  else none

/-- An overlay entry fails to load for the name `n`: the three `Failed to load
port` exits of `try_load_overlay_port` (a single-port directory that does not
parse, a port directory `n` inside a directory of ports that does not parse or
declares another name). -/
def overlay_fails_to_load (paths : VcpkgPaths) (n : String) (d : Path) : Bool :=
  if paths.is_port_directory d then
    match paths.try_load_port d with
    | .ok _ => false
    | .error _ => true
  else if paths.is_port_directory (Path.join d n) then
    match paths.try_load_port (Path.join d n) with
    | .ok scf => decide (scf.core_paragraph.name ≠ n)
    | .error _ => true
  else false

/-- The computation returns the value `a`, after some calls. -/
def Eff.Returns {α : Type} (x : Eff α) (a : α) : Prop := ∃ l, x = .done (a, l)

/-- The provider over the overlay directories `/ov/zlib`, `/ov/single`, `/ov/multi`. -/
def demoProvider3 : PathsPortFileProvider :=
  { overlay_ports := ["/ov/zlib", "/ov/single", "/ov/multi"], cache := [] }

/-! ## C3: `load_all_control_files` returns each name once, overlays first -/

/-- The ports `load_all_control_files` reads from one overlay entry: the port of
a single-port directory, or the ports `load_overlay_ports` finds in a directory
of ports. -/
def overlay_contents (paths : VcpkgPaths) (d : Path) : List SourceControlFileLocation :=
  if paths.is_port_directory d then
    match paths.try_load_port d with
    | .ok scf => [⟨scf, d⟩]
    | .error _ => []
  else
    match paths.load_overlay_ports d with
    | .done found => found
    | _ => []

/-- The test `declares the name n` on a located control file. -/
def declares (n : String) (y : SourceControlFileLocation) : Bool := decide (y.name = n)

/-- The cache and `ret` of `load_all_control_files` agree: the cache element of a
name is the first entry of `ret` declaring it, and no two entries of `ret`
declare the same name. -/
def LoadAllInv (acc : Map String SourceControlFileLocation × List SourceControlFileLocation) :
    Prop :=
  (∀ k, Map.find k acc.1 = acc.2.find? (declares k)) ∧ (acc.2.map (·.name)).Nodup

/-- The ports the snapshot's overlays and registry give to `load_all_control_files`. -/
def demoAll : List SourceControlFileLocation :=
  [⟨mkScf "zlib" "1.2" 0, "/ov/zlib"⟩, fooOverlay, ⟨mkScf "bar" "1.0" 0, "/vcpkg/ports/bar"⟩]

/-! ## C4: a second lookup is answered from the cache -/

/-- The port the registry of the snapshot gives for `bar`. -/
def barRegistry : SourceControlFileLocation := ⟨mkScf "bar" "1.0" 0, "/vcpkg/ports/bar"⟩

/-! ## C5: the baseline version of a port -/

/-- The provider `PathsPortFileProvider(paths, {})` as constructed: no overlays,
empty cache. -/
def freshProvider : PathsPortFileProvider := { overlay_ports := [], cache := [] }

/-- Every cache element of a provider without overlays is what a freshly
constructed provider without overlays resolves for its name. -/
def FreshInv (paths : VcpkgPaths) (prov : PathsPortFileProvider) : Prop :=
  ∀ k v, Map.find k prov.cache = some v →
    ∃ f l, PathsPortFileProvider.get_control_file paths freshProvider k = .done ((.ok v, f), l)

/-- What the members of a `BaselineProviderImpl` hold once the lazy slot is
filled: in fallback mode no baseline was given, no local baseline file exists
and the fallback provider exists, has no overlays and a cache as in `FreshInv`; a computed map is the parse of the existing baseline
file of the explicit baseline, or of the existing local baseline file when no
baseline was given. -/
def BaselineInv (paths : VcpkgPaths) (b : BaselineProviderImpl) : Prop :=
  match b.baseline_cache with
  | none => True
  | some none =>
    b.m_baseline = none ∧ paths.fs_exists (local_baseline_file paths) = false ∧
    ∃ prov, b.m_portfile_provider = some prov ∧ prov.overlay_ports = [] ∧ FreshInv paths prov
  | some (some m) =>
    (∃ sha, b.m_baseline = some sha ∧ paths.fs_exists (paths.git_checkout_baseline sha) = true ∧
      paths.parse_baseline_file (paths.git_checkout_baseline sha) = some m) ∨
    (b.m_baseline = none ∧ paths.fs_exists (local_baseline_file paths) = true ∧
      paths.parse_baseline_file (local_baseline_file paths) = some m)

/-- The states of a `BaselineProviderImpl`: those of its two constructors and
those `get_baseline_cache` and `get_baseline_version` lead to. -/
inductive BaselineProviderImpl.Reachable (paths : VcpkgPaths) : BaselineProviderImpl → Prop where
  | construct : Reachable paths BaselineProviderImpl.construct
  | construct_with (baseline : String) :
      Reachable paths (BaselineProviderImpl.construct_with baseline)
  | get_baseline_cache (b b' : BaselineProviderImpl) (r : Option (Map String VersionT))
      (l : List Call) : Reachable paths b →
      BaselineProviderImpl.get_baseline_cache paths b = .done ((r, b'), l) → Reachable paths b'
  | get_baseline_version (b b' : BaselineProviderImpl) (port_name : String)
      (r : Option VersionT) (l : List Call) : Reachable paths b →
      BaselineProviderImpl.get_baseline_version paths b port_name = .done ((r, b'), l) →
      Reachable paths b'

/-- The snapshot with a local baseline file giving `foo` the version `2.0#1`. -/
def demoPathsBaseline : VcpkgPaths :=
  { demoPaths with
    fs_exists := fun p => p = "/vcpkg/port_versions/baseline.json"
    parse_baseline_file := fun p =>
      if p = "/vcpkg/port_versions/baseline.json" then some [("foo", ⟨"2.0", 1⟩)] else none }

/-! ## The version index: what one load adds -/

/-- The version spec `get_port_versions` builds from an entry. -/
def entry_spec (port : String) (e : VersionDbEntry) : VersionSpec :=
  { port_name := port, version := e.version }

/-- The git tree of the first entry listing the version `v`. -/
def first_tree (entries : List VersionDbEntry) (v : VersionT) : Option String :=
  (entries.find? (fun e => decide (e.version = v))).map (·.git_tree)

/-- The version-database file of the port exists. -/
def db_exists (paths : VcpkgPaths) (port_name : String) : Bool :=
  paths.fs_exists (versions_json_path paths port_name)

/-- The parse of the version-database file of the port. -/
def db_entries (paths : VcpkgPaths) (port_name : String) : ExpectedS (List VersionDbEntry) :=
  paths.parse_versions_file port_name (versions_json_path paths port_name)

/-- The version spec the fallback of `get_port_versions` builds from the current port. -/
def current_spec (port_name : String) (q : SourceControlFileLocation) : VersionSpec :=
  { port_name := port_name
    version := { text := q.source_control_file.core_paragraph.version
                 port_version := q.source_control_file.core_paragraph.port_version } }

/-! ## The three caches of `VersionedPortfileProviderImpl` agree with the snapshot -/

/-- What the caches hold in every reachable state. For a port with a version
database, the cached version list is the list of the database and the git tree
cache gives each version the tree of its first entry; a cached control file of
such a port was loaded from the checkout of that tree and declares the port's
name; and every key of the control cache and of the git tree cache is in the
cached version list of its port. -/
structure VersionedInv (paths : VcpkgPaths) (st : VersionedPortfileProviderImpl) : Prop where
  versions : ∀ p L, Map.find p st.versions_cache = some L → db_exists paths p = true →
    ∃ entries, db_entries paths p = .ok entries ∧ L = entries.map (entry_spec p) ∧
      ∀ v, Map.find ⟨p, v⟩ st.git_tree_cache = first_tree entries v
  control : ∀ s loc, Map.find s st.control_cache = some loc →
    db_exists paths s.port_name = true →
    ∃ entries t, db_entries paths s.port_name = .ok entries ∧
      first_tree entries s.version = some t ∧
      paths.try_load_port (paths.git_checkout_port s.port_name t) = .ok loc.source_control_file ∧
      loc.source_control_file.core_paragraph.name = s.port_name
  indexed : ∀ s, (Map.find s st.control_cache).isSome ∨ (Map.find s st.git_tree_cache).isSome →
    ∃ L, Map.find s.port_name st.versions_cache = some L ∧ s ∈ L

/-- The states of a `VersionedPortfileProviderImpl`: the constructed one and
those the two public methods lead to. -/
inductive VersionedPortfileProviderImpl.Reachable (paths : VcpkgPaths) :
    VersionedPortfileProviderImpl → Prop where
  | construct : Reachable paths VersionedPortfileProviderImpl.construct
  | get_port_versions (st st' : VersionedPortfileProviderImpl) (port_name : String)
      (L : List VersionSpec) (l : List Call) : Reachable paths st →
      VersionedPortfileProviderImpl.get_port_versions paths st port_name = .done ((L, st'), l) →
      Reachable paths st'
  | get_control_file (st st' : VersionedPortfileProviderImpl) (s : VersionSpec)
      (r : ExpectedS SourceControlFileLocation) (l : List Call) : Reachable paths st →
      VersionedPortfileProviderImpl.get_control_file paths st s = .done ((r, st'), l) →
      Reachable paths st'

/-! ## C6: the version list of a port with a version database -/

/-- The snapshot in which the version database of the port `empty` exists and
lists no version. -/
def demoPathsEmptyDb : VcpkgPaths :=
  { demoPaths with
    fs_exists := fun p => p = "/vcpkg/port_versions/e-/empty.json"
    parse_versions_file := fun _ _ => .ok [] }

/-! ## C7: a version that is not in the index -/

/-- The state of the versioned provider after the version database of `foo` was read. -/
def demoVersionedFoo : VersionedPortfileProviderImpl :=
  { versions_cache := [("foo", [⟨"foo", ⟨"1.2.0", 3⟩⟩])]
    git_tree_cache := [(⟨"foo", ⟨"1.2.0", 3⟩⟩, "abc123")]
    control_cache := [] }

/-! ## C8 and C9: resolving a version listed in the version database -/

/-- The calls that request a checkout of a port's git tree. -/
def Call.is_git_checkout_port : Call → Bool
  | .git_checkout_port _ _ => true
  | _ => false

/-- The snapshot in which the tree `abc123` of `foo` holds a control file
declaring the name `foo-old`. -/
def demoPathsStale : VcpkgPaths :=
  { demoPaths with
    try_load_port := fun p =>
      if p = "/git/foo/abc123" then .ok (mkScf "foo-old" "1.2.0" 3) else .error "no control file" }

/-- The snapshot in which the version database of `foo` lists the version
`1.2.0#3` twice, first with the tree `old111`, then with the tree `abc123`; only
the checkout of `abc123` holds a control file. -/
def demoPathsListedTwice : VcpkgPaths :=
  { demoPaths with
    parse_versions_file := fun port_name _ =>
      if port_name = "foo" then .ok [⟨⟨"1.2.0", 3⟩, "old111"⟩, ⟨⟨"1.2.0", 3⟩, "abc123"⟩]
      else .error "no versions" }

/-- The state of the versioned provider after that database was read: the git
tree cache keeps the first tree. -/
def demoVersionedListedTwice : VersionedPortfileProviderImpl :=
  { versions_cache := [("foo", [⟨"foo", ⟨"1.2.0", 3⟩⟩, ⟨"foo", ⟨"1.2.0", 3⟩⟩])]
    git_tree_cache := [(⟨"foo", ⟨"1.2.0", 3⟩⟩, "old111")]
    control_cache := [] }

/-! ## C11: lookups that follow a lookup -/

/-- The provider states a sequence of returning `get_control_file` calls leads
to: `GetSteps paths p p'` when such a sequence takes the provider from `p` to `p'`. -/
inductive PathsPortFileProvider.GetSteps (paths : VcpkgPaths) :
    PathsPortFileProvider → PathsPortFileProvider → Prop where
  | refl (p : PathsPortFileProvider) : GetSteps paths p p
  | step (p p' p'' : PathsPortFileProvider) (spec : String)
      (r : ExpectedS SourceControlFileLocation) (l : List Call) :
      GetSteps paths p p' →
      PathsPortFileProvider.get_control_file paths p' spec = .done ((r, p''), l) →
      GetSteps paths p p''

/-- The provider of the snapshot after `bar` was resolved. -/
def demoProviderBar : PathsPortFileProvider :=
  { demoProvider with cache := [("bar", barRegistry)] }

/-- The provider of the snapshot after `bar`, then `foo`, were resolved. -/
def demoProviderBarFoo : PathsPortFileProvider :=
  { demoProvider with cache := [("bar", barRegistry), ("foo", fooOverlay)] }

/-! ## C12: the cached version list of a port -/

/-- The provider states a sequence of returning `get_port_versions` and
`get_control_file` calls, for any names and specs, leads to. -/
inductive VersionedPortfileProviderImpl.Later (paths : VcpkgPaths) :
    VersionedPortfileProviderImpl → VersionedPortfileProviderImpl → Prop where
  | refl (st : VersionedPortfileProviderImpl) : Later paths st st
  | get_port_versions (st st' st'' : VersionedPortfileProviderImpl) (port_name : String)
      (L : List VersionSpec) (l : List Call) : Later paths st st' →
      VersionedPortfileProviderImpl.get_port_versions paths st' port_name =
        .done ((L, st''), l) →
      Later paths st st''
  | get_control_file (st st' st'' : VersionedPortfileProviderImpl) (s : VersionSpec)
      (r : ExpectedS SourceControlFileLocation) (l : List Call) : Later paths st st' →
      VersionedPortfileProviderImpl.get_control_file paths st' s = .done ((r, st''), l) →
      Later paths st st''

/-- The state of the versioned provider after `foo` at `1.2.0#3` was resolved. -/
def demoVersionedFooLoaded : VersionedPortfileProviderImpl :=
  { demoVersionedFoo with
    control_cache := [(⟨"foo", ⟨"1.2.0", 3⟩⟩, ⟨mkScf "foo" "1.2.0" 3, "/git/foo/abc123"⟩)] }

/-- The state after the registry fallback also gave the version list of `bar`. -/
def demoVersionedFooBar : VersionedPortfileProviderImpl :=
  { versions_cache := [("foo", [⟨"foo", ⟨"1.2.0", 3⟩⟩]), ("bar", [⟨"bar", ⟨"1.0", 0⟩⟩])]
    git_tree_cache := [(⟨"foo", ⟨"1.2.0", 3⟩⟩, "abc123")]
    control_cache := [(⟨"foo", ⟨"1.2.0", 3⟩⟩, ⟨mkScf "foo" "1.2.0" 3, "/git/foo/abc123"⟩),
      (⟨"bar", ⟨"1.0", 0⟩⟩, barRegistry)] }

/-! ## C13: overlay paths the constructor rejects -/

/-- The path the constructor hands to `fs.canonical` for a configured overlay
path: the path itself when absolute, else the path under `original_cwd`. -/
def overlay_argument (paths : VcpkgPaths) (overlay_path : String) : Path :=
  if paths.is_absolute overlay_path then overlay_path
  else Path.join paths.original_cwd overlay_path

/-- A configured overlay path that is not empty and does not exist on disk or is
not a directory: its canonical form cannot be computed, or does not exist, or is
not a directory. -/
def overlay_path_rejected (paths : VcpkgPaths) (overlay_path : String) : Bool :=
  decide (overlay_path ≠ "") &&
    match paths.canonical (overlay_argument paths overlay_path) with
    | none => true
    | some overlay => !(paths.fs_exists overlay) || !(paths.is_directory overlay)

/-! # Part 2: theorems -/

/-! ## Basic facts on sequencing and maps -/

theorem Eff.bind_done {α β : Type} {x : Eff α} {f : α → Eff β} {b : β} {l : List Call}
    (h : Eff.bind x f = .done (b, l)) :
    ∃ a l1 l2, x = .done (a, l1) ∧ f a = .done (b, l2) ∧ l = l1 ++ l2 := by
  unfold Eff.bind at h
  split at h
  · cases h
  · cases h
  · rename_i a l1
    split at h
    · cases h
    · cases h
    · rename_i b' l2 hf
      cases h
      exact ⟨a, l1, l2, rfl, hf, rfl⟩

theorem Eff.bind_of_done {α β : Type} {x : Eff α} {f : α → Eff β} {a : α} {b : β}
    {l1 l2 : List Call} (hx : x = .done (a, l1)) (hf : f a = .done (b, l2)) :
    Eff.bind x f = .done (b, l1 ++ l2) := by
  subst hx
  simp [Eff.bind, hf]

theorem Eff.call_bind_done {α β : Type} {c : Call} {r : α} {f : α → Eff β} {b : β}
    {l : List Call} (h : Eff.bind (call c r) f = .done (b, l)) :
    ∃ l2, f r = .done (b, l2) ∧ l = c :: l2 := by
  obtain ⟨a, l1, l2, hx, hf, rfl⟩ := Eff.bind_done h
  simp only [call, Outcome.done.injEq, Prod.mk.injEq] at hx
  obtain ⟨rfl, rfl⟩ := hx
  exact ⟨l2, hf, rfl⟩

theorem Eff.pure_done {α : Type} {a b : α} {l : List Call}
    (h : Eff.pure a = .done (b, l)) : a = b ∧ l = [] := by
  simp only [Eff.pure, Outcome.done.injEq, Prod.mk.injEq] at h
  exact ⟨h.1, h.2.symm⟩

theorem callOutcome_bind_done {α β : Type} {c : Call} {r : Outcome α} {f : α → Eff β} {b : β}
    {l : List Call} (h : Eff.bind (callOutcome c r) f = .done (b, l)) :
    ∃ a l2, r = .done a ∧ f a = .done (b, l2) ∧ l = c :: l2 := by
  obtain ⟨a, l1, l2, hx, hf, rfl⟩ := Eff.bind_done h
  cases r with
  | exit m => simp [callOutcome] at hx
  | threw w => simp [callOutcome] at hx
  | done a' =>
    simp only [callOutcome, Outcome.done.injEq, Prod.mk.injEq] at hx
    obtain ⟨rfl, rfl⟩ := hx
    exact ⟨a', l2, rfl, hf, rfl⟩

theorem Map.find_append {κ ν : Type} [DecidableEq κ] (k : κ) (m m' : Map κ ν) :
    Map.find k (m ++ m') = (match Map.find k m with
      | some v => some v
      | none => Map.find k m') := by
  induction m with
  | nil => simp [Map.find]
  | cons kv m ih =>
    obtain ⟨k', v⟩ := kv
    by_cases hk : k' = k
    · simp [Map.find, hk]
    · simp only [List.cons_append, Map.find, hk, if_false]
      exact ih

theorem Map.find_emplace_self {κ ν : Type} [DecidableEq κ] (m : Map κ ν) (k : κ) (v : ν) :
    Map.find k (Map.emplace m k v).1 = some (Map.emplace m k v).2 := by
  unfold Map.emplace
  cases h : Map.find k m with
  | some v' => simp [h]
  | none => simp [Map.find_append, h, Map.find]

theorem Map.find_emplace_of_ne {κ ν : Type} [DecidableEq κ] (m : Map κ ν) (k k' : κ) (v : ν)
    (hne : k ≠ k') : Map.find k' (Map.emplace m k v).1 = Map.find k' m := by
  unfold Map.emplace
  cases h : Map.find k m with
  | some v' => simp
  | none =>
    simp only [Map.find_append, Map.find, hne, if_false]
    cases Map.find k' m <;> rfl

theorem Map.emplace_of_find_none {κ ν : Type} [DecidableEq κ] (m : Map κ ν) (k : κ) (v : ν)
    (h : Map.find k m = none) : Map.emplace m k v = (m ++ [(k, v)], v) := by
  simp [Map.emplace, h]

theorem Map.emplace_of_find_some {κ ν : Type} [DecidableEq κ] (m : Map κ ν) (k : κ) (v v' : ν)
    (h : Map.find k m = some v') : Map.emplace m k v = (m, v') := by
  simp [Map.emplace, h]

/-! ## What the two loaders return -/

theorem try_load_overlay_port_name (paths : VcpkgPaths) (spec : String) :
    ∀ (overlays : List Path) (loc : SourceControlFileLocation) (l : List Call),
      try_load_overlay_port paths spec overlays = .done (some loc, l) → loc.name = spec := by
  intro overlays
  induction overlays with
  | nil =>
    intro loc l h
    simp [try_load_overlay_port, Eff.pure] at h
  | cons d rest ih =>
    intro loc l h
    unfold try_load_overlay_port at h
    obtain ⟨l1, h, -⟩ := Eff.call_bind_done h
    split at h
    · obtain ⟨l2, h, -⟩ := Eff.call_bind_done h
      split at h
      · split at h
        · rename_i scf _ hname
          obtain ⟨h1, -⟩ := Eff.pure_done h
          cases h1
          exact hname
        · exact ih _ _ h
      · simp [exit_with_message] at h
    · obtain ⟨l2, h, -⟩ := Eff.call_bind_done h
      split at h
      · obtain ⟨l3, h, -⟩ := Eff.call_bind_done h
        split at h
        · split at h
          · rename_i scf _ hname
            obtain ⟨h1, -⟩ := Eff.pure_done h
            cases h1
            exact hname
          · simp [exit_with_message] at h
        · simp [exit_with_message] at h
      · exact ih _ _ h

theorem try_load_registry_port_name (paths : VcpkgPaths) (spec : String)
    (loc : SourceControlFileLocation) (l : List Call)
    (h : try_load_registry_port paths spec = .done (some loc, l)) : loc.name = spec := by
  unfold try_load_registry_port at h
  obtain ⟨l1, h, -⟩ := Eff.call_bind_done h
  split at h
  · obtain ⟨l2, h, -⟩ := Eff.call_bind_done h
    obtain ⟨l3, h, -⟩ := Eff.call_bind_done h
    split at h
    · obtain ⟨l4, h, -⟩ := Eff.call_bind_done h
      split at h
      · simp [exit_with_message] at h
      · obtain ⟨l5, h, -⟩ := Eff.call_bind_done h
        split at h
        · split at h
          · rename_i scf _ hname
            obtain ⟨h1, -⟩ := Eff.pure_done h
            cases h1
            exact hname
          · simp [exit_with_message] at h
        · simp [exit_with_message] at h
    · simp [Eff.pure] at h
  · simp [Eff.pure] at h

theorem CacheNamed.emplace {cache : Map String SourceControlFileLocation} (hc : CacheNamed cache)
    (k : String) (v : SourceControlFileLocation) (hv : v.name = k) :
    CacheNamed (Map.emplace cache k v).1 ∧ (Map.emplace cache k v).2.name = k := by
  have h2 : (Map.emplace cache k v).2.name = k := by
    unfold Map.emplace
    cases h : Map.find k cache with
    | some v' => exact hc k v' h
    | none => exact hv
  refine ⟨?_, h2⟩
  intro k' v' hf
  by_cases hk : k = k'
  · subst hk
    rw [Map.find_emplace_self] at hf
    cases hf
    exact h2
  · rw [Map.find_emplace_of_ne _ _ _ _ hk] at hf
    exact hc k' v' hf

theorem load_all_add_named (acc : Map String SourceControlFileLocation × List SourceControlFileLocation)
    (scfl : SourceControlFileLocation) (hc : CacheNamed acc.1) :
    CacheNamed (load_all_add acc scfl).1 := by
  unfold load_all_add
  dsimp only
  split
  · exact (hc.emplace _ scfl rfl).1
  · exact hc

theorem load_all_foldl_named (xs : List SourceControlFileLocation) :
    ∀ acc : Map String SourceControlFileLocation × List SourceControlFileLocation,
      CacheNamed acc.1 → CacheNamed (xs.foldl load_all_add acc).1 := by
  induction xs with
  | nil => intro acc hc; exact hc
  | cons x xs ih => intro acc hc; exact ih _ (load_all_add_named acc x hc)

theorem load_all_overlays_named (paths : VcpkgPaths) :
    ∀ (overlays : List Path)
      (acc acc' : Map String SourceControlFileLocation × List SourceControlFileLocation)
      (l : List Call), CacheNamed acc.1 →
      load_all_overlays paths overlays acc = .done (acc', l) → CacheNamed acc'.1 := by
  intro overlays
  induction overlays with
  | nil =>
    intro acc acc' l hc h
    obtain ⟨h1, -⟩ := Eff.pure_done h
    subst h1
    exact hc
  | cons d rest ih =>
    intro acc acc' l hc h
    unfold load_all_overlays at h
    obtain ⟨l1, h, -⟩ := Eff.call_bind_done h
    split at h
    · obtain ⟨l2, h, -⟩ := Eff.call_bind_done h
      split at h
      · exact ih _ _ _ (load_all_add_named _ _ hc) h
      · simp [exit_with_message] at h
    · obtain ⟨found, l2, -, h, -⟩ := callOutcome_bind_done h
      exact ih _ _ _ (load_all_foldl_named _ _ hc) h

theorem PathsPortFileProvider.get_control_file_named (paths : VcpkgPaths)
    (p p' : PathsPortFileProvider) (spec : String) (r : ExpectedS SourceControlFileLocation)
    (l : List Call) (hc : CacheNamed p.cache)
    (h : PathsPortFileProvider.get_control_file paths p spec = .done ((r, p'), l)) :
    CacheNamed p'.cache ∧ ∀ loc, r = .ok loc → loc.name = spec := by
  unfold PathsPortFileProvider.get_control_file at h
  split at h
  · rename_i cached hfind
    obtain ⟨h1, -⟩ := Eff.pure_done h
    cases h1
    exact ⟨hc, fun loc hloc => by cases hloc; exact hc _ _ hfind⟩
  · obtain ⟨mp, l1, l2, hov, h, -⟩ := Eff.bind_done h
    obtain ⟨mp2, l3, l4, hreg, h, -⟩ := Eff.bind_done h
    have hname : ∀ q, mp2 = some q → q.name = spec := by
      intro q hq
      subst hq
      cases mp with
      | some q' =>
        obtain ⟨h1, -⟩ := Eff.pure_done hreg
        cases h1
        exact try_load_overlay_port_name paths spec _ _ _ hov
      | none => exact try_load_registry_port_name paths spec _ _ hreg
    split at h
    · rename_i q
      obtain ⟨l5, h, -⟩ := Eff.call_bind_done h
      split at h
      · obtain ⟨h1, -⟩ := Eff.pure_done h
        cases h1
        exact ⟨hc, fun loc hloc => by cases hloc⟩
      · obtain ⟨h1, -⟩ := Eff.pure_done h
        cases h1
        have := hc.emplace spec q (hname q rfl)
        exact ⟨this.1, fun loc hloc => by cases hloc; exact this.2⟩
    · obtain ⟨h1, -⟩ := Eff.pure_done h
      cases h1
      exact ⟨hc, fun loc hloc => by cases hloc⟩

theorem PathsPortFileProvider.Reachable.cacheNamed {paths : VcpkgPaths}
    {p : PathsPortFileProvider} (hr : PathsPortFileProvider.Reachable paths p) :
    CacheNamed p.cache := by
  induction hr with
  | construct ov p l h =>
    unfold PathsPortFileProvider.construct at h
    obtain ⟨a, l1, l2, -, h, -⟩ := Eff.bind_done h
    obtain ⟨h1, -⟩ := Eff.pure_done h
    subst h1
    intro k v hf
    simp [Map.find] at hf
  | get_control_file p p' spec r l _ h ih =>
    exact (PathsPortFileProvider.get_control_file_named paths p p' spec r l ih h).1
  | load_all_control_files p p' ret l _ h ih =>
    unfold PathsPortFileProvider.load_all_control_files at h
    obtain ⟨acc, l1, l2, hov, h, -⟩ := Eff.bind_done h
    obtain ⟨reg, l3, -, h, -⟩ := callOutcome_bind_done h
    obtain ⟨h1, -⟩ := Eff.pure_done h
    cases h1
    have h0 : CacheNamed (([], []) :
        Map String SourceControlFileLocation × List SourceControlFileLocation).1 := by
      intro k v hf
      simp [Map.find] at hf
    exact load_all_foldl_named _ _ (load_all_overlays_named paths _ _ _ _ h0 hov)

/-! ## The provider of the snapshot, as constructed -/

theorem demoProvider_construct :
    PathsPortFileProvider.construct demoPaths ["/ov/single", "", "/ov/multi"] =
      .done (demoProvider,
        [Call.fs_canonical "/ov/single", Call.fs_exists "/ov/single",
         Call.fs_is_directory "/ov/single", Call.fs_canonical "/ov/multi",
         Call.fs_exists "/ov/multi", Call.fs_is_directory "/ov/multi"]) := by
  decide

/-! ## C1: a resolved control file declares the requested name -/

/-- C1: in every state of a `PathsPortFileProvider` reachable from construction
by `get_control_file` and `load_all_control_files` calls, a control-file
location returned by `get_control_file(n)` declares the name `n`. -/
theorem get_control_file_declares_requested_name (paths : VcpkgPaths)
    (p p' : PathsPortFileProvider) (n : String) (loc : SourceControlFileLocation)
    (l : List Call) (hr : PathsPortFileProvider.Reachable paths p)
    (h : PathsPortFileProvider.get_control_file paths p n = .done ((.ok loc, p'), l)) :
    loc.source_control_file.core_paragraph.name = n :=
  (PathsPortFileProvider.get_control_file_named paths p p' n (.ok loc) l hr.cacheNamed h).2 loc rfl

theorem get_control_file_declares_requested_name_witness :
    PathsPortFileProvider.Reachable demoPaths demoProvider ∧
    PathsPortFileProvider.get_control_file demoPaths demoProvider "foo" =
      .done ((.ok fooOverlay, { demoProvider with cache := [("foo", fooOverlay)] }),
        [Call.is_port_directory "/ov/single", Call.try_load_port "/ov/single",
         Call.check_against_feature_flags fooOverlay]) ∧
    fooOverlay.source_control_file.core_paragraph.name = "foo" :=
  ⟨.construct _ _ _ demoProvider_construct, by rfl,
   get_control_file_declares_requested_name demoPaths demoProvider _ "foo" fooOverlay _
     (.construct _ _ _ demoProvider_construct)
     (show PathsPortFileProvider.get_control_file demoPaths demoProvider "foo" =
        .done ((.ok fooOverlay, { demoProvider with cache := [("foo", fooOverlay)] }),
          [Call.is_port_directory "/ov/single", Call.try_load_port "/ov/single",
           Call.check_against_feature_flags fooOverlay]) by rfl)⟩

/-! ## C2: overlays come before the registry -/

theorem Eff.Returns.pure {α : Type} (a : α) : (Eff.pure a).Returns a := ⟨[], rfl⟩

theorem Eff.Returns.bind {α β : Type} {x : Eff α} {f : α → Eff β} {a : α} {b : β}
    (hx : x.Returns a) (hf : (f a).Returns b) : (Eff.bind x f).Returns b := by
  obtain ⟨l1, hx⟩ := hx
  obtain ⟨l2, hf⟩ := hf
  exact ⟨l1 ++ l2, Eff.bind_of_done hx hf⟩

theorem Eff.Returns.call {α : Type} (c : Call) (r : α) : (vcpkg.call c r).Returns r := ⟨[c], rfl⟩

theorem Eff.Returns.bind_call {α β : Type} {c : Call} {r : α} {f : α → Eff β} {b : β}
    (hf : (f r).Returns b) : (Eff.bind (vcpkg.call c r) f).Returns b :=
  Eff.Returns.bind (Eff.Returns.call c r) hf

theorem try_load_overlay_port_no_registry (paths : VcpkgPaths) (spec : String) :
    ∀ (overlays : List Path) (r : Option SourceControlFileLocation) (l : List Call),
      try_load_overlay_port paths spec overlays = .done (r, l) →
      ∀ c ∈ l, c.is_registry = false := by
  intro overlays
  induction overlays with
  | nil =>
    intro r l h
    obtain ⟨-, rfl⟩ := Eff.pure_done h
    simp
  | cons d rest ih =>
    intro r l h
    unfold try_load_overlay_port at h
    obtain ⟨l1, h1, e1⟩ := Eff.call_bind_done h
    subst e1
    split at h1
    · obtain ⟨l2, h2, e2⟩ := Eff.call_bind_done h1
      subst e2
      split at h2
      · split at h2
        · obtain ⟨-, e3⟩ := Eff.pure_done h2
          subst e3
          simp [Call.is_registry]
        · have := ih _ _ h2
          simpa [Call.is_registry] using this
      · simp [exit_with_message] at h2
    · obtain ⟨l2, h2, e2⟩ := Eff.call_bind_done h1
      subst e2
      split at h2
      · obtain ⟨l3, h3, e3⟩ := Eff.call_bind_done h2
        subst e3
        split at h3
        · split at h3
          · obtain ⟨-, e4⟩ := Eff.pure_done h3
            subst e4
            simp [Call.is_registry]
          · simp [exit_with_message] at h3
        · simp [exit_with_message] at h3
      · have := ih _ _ h2
        simpa [Call.is_registry] using this

theorem try_load_overlay_port_none (paths : VcpkgPaths) (spec : String) :
    ∀ (overlays : List Path) (l : List Call),
      try_load_overlay_port paths spec overlays = .done (none, l) →
      ∀ d ∈ overlays, overlay_provides paths spec d = none := by
  intro overlays
  induction overlays with
  | nil => intro l _ d hd; simp at hd
  | cons e rest ih =>
    intro l h
    unfold try_load_overlay_port at h
    obtain ⟨l1, h1, -⟩ := Eff.call_bind_done h
    split at h1
    · rename_i hs
      obtain ⟨l2, h2, -⟩ := Eff.call_bind_done h1
      split at h2
      · rename_i scf hl
        split at h2
        · obtain ⟨e3, -⟩ := Eff.pure_done h2
          cases e3
        · rename_i hn
          have he : overlay_provides paths spec e = none := by
            simp [overlay_provides, hs, hl, hn]
          intro d hd
          rcases List.mem_cons.1 hd with rfl | hd
          · exact he
          · exact ih _ h2 d hd
      · simp [exit_with_message] at h2
    · rename_i hs
      obtain ⟨l2, h2, -⟩ := Eff.call_bind_done h1
      split at h2
      · obtain ⟨l3, h3, -⟩ := Eff.call_bind_done h2
        split at h3
        · split at h3
          · obtain ⟨e4, -⟩ := Eff.pure_done h3
            cases e4
          · simp [exit_with_message] at h3
        · simp [exit_with_message] at h3
      · rename_i hsub
        have he : overlay_provides paths spec e = none := by
          simp [overlay_provides, hs, hsub]
        intro d hd
        rcases List.mem_cons.1 hd with rfl | hd
        · exact he
        · exact ih _ h2 d hd

theorem try_load_overlay_port_first (paths : VcpkgPaths) (spec : String) (d : Path)
    (post : List Path) (loc : SourceControlFileLocation)
    (hd : overlay_provides paths spec d = some loc) :
    ∀ pre : List Path,
      (∀ e ∈ pre, overlay_provides paths spec e = none ∧
        overlay_fails_to_load paths spec e = false) →
      (try_load_overlay_port paths spec (pre ++ d :: post)).Returns (some loc) := by
  intro pre
  induction pre with
  | nil =>
    intro _
    simp only [List.nil_append]
    unfold try_load_overlay_port
    unfold overlay_provides at hd
    apply Eff.Returns.bind_call
    by_cases hs : paths.is_port_directory d = true
    · simp only [hs, if_true] at hd ⊢
      apply Eff.Returns.bind_call
      cases hl : paths.try_load_port d with
      | error e => simp [hl] at hd
      | ok scf =>
        simp only [hl] at hd ⊢
        by_cases hn : scf.core_paragraph.name = spec
        · simp only [hn, if_true] at hd ⊢
          cases hd
          exact Eff.Returns.pure _
        · simp [hn] at hd
    · simp only [hs] at hd ⊢
      apply Eff.Returns.bind_call
      by_cases hsub : paths.is_port_directory (Path.join d spec) = true
      · simp only [hsub, if_true] at hd ⊢
        apply Eff.Returns.bind_call
        cases hl : paths.try_load_port (Path.join d spec) with
        | error e => simp [hl] at hd
        | ok scf =>
          simp only [hl] at hd ⊢
          by_cases hn : scf.core_paragraph.name = spec
          · simp only [hn, if_true, Bool.false_eq_true, if_false] at hd ⊢
            cases hd
            exact Eff.Returns.pure _
          · simp [hn] at hd
      · simp [hsub] at hd
  | cons e pre ih =>
    intro hpre
    have hl := ih (fun x hx => hpre x (List.mem_cons_of_mem _ hx))
    obtain ⟨hp, hf⟩ := hpre e (List.mem_cons_self _ _)
    simp only [List.cons_append]
    unfold try_load_overlay_port
    unfold overlay_provides at hp
    unfold overlay_fails_to_load at hf
    apply Eff.Returns.bind_call
    by_cases hs : paths.is_port_directory e = true
    · simp only [hs, if_true] at hp hf ⊢
      apply Eff.Returns.bind_call
      cases hld : paths.try_load_port e with
      | error m => simp [hld] at hf
      | ok scf =>
        simp only [hld] at hp ⊢
        have hn : ¬ scf.core_paragraph.name = spec := by
          intro hn
          simp [hn] at hp
        simp only [hn, if_false]
        exact hl
    · simp only [hs] at hp hf ⊢
      apply Eff.Returns.bind_call
      by_cases hsub : paths.is_port_directory (Path.join e spec) = true
      · simp only [hsub, if_true] at hp hf
        cases hld : paths.try_load_port (Path.join e spec) with
        | error m => simp [hld] at hf
        | ok scf =>
          simp only [hld] at hp hf
          by_cases hn : scf.core_paragraph.name = spec
          · simp [hn] at hp
          · simp [hn] at hf
      · simp only [hsub]
        exact hl

/-- C2: for a name `n` not yet cached, when the overlay list is `pre ++ d :: post`
where `d` is the first entry providing a port declaring `n`, no entry of `pre`
fails to load and the feature-flag check passes, `get_control_file(n)` returns
the port loaded from `d` and caches it, without any call to the registry
(whatever the registry and its baseline hold); and whenever a
`get_control_file(n)` call consults the registry, no overlay entry provides `n`. -/
theorem get_control_file_overlay_precedence (paths : VcpkgPaths) (p : PathsPortFileProvider)
    (n : String) (hcache : Map.find n p.cache = none) :
    (∀ (pre : List Path) (d : Path) (post : List Path) (loc : SourceControlFileLocation),
      p.overlay_ports = pre ++ d :: post →
      (∀ e ∈ pre, overlay_provides paths n e = none ∧ overlay_fails_to_load paths n e = false) →
      overlay_provides paths n d = some loc →
      paths.check_against_feature_flags loc.source_control_file loc.source_location = none →
      ∃ l, PathsPortFileProvider.get_control_file paths p n =
          .done ((.ok loc, { p with cache := p.cache ++ [(n, loc)] }), l) ∧
        ∀ c ∈ l, c.is_registry = false) ∧
    (∀ (r : ExpectedS SourceControlFileLocation) (p' : PathsPortFileProvider) (l : List Call),
      PathsPortFileProvider.get_control_file paths p n = .done ((r, p'), l) →
      (∃ c ∈ l, c.is_registry = true) →
      ∀ d ∈ p.overlay_ports, overlay_provides paths n d = none) := by
  constructor
  · intro pre d post loc hov hpre hd hflags
    obtain ⟨l0, h0⟩ := try_load_overlay_port_first paths n d post loc hd pre hpre
    have hnr := try_load_overlay_port_no_registry paths n _ _ _ h0
    refine ⟨l0 ++ ([] ++ ([Call.check_against_feature_flags loc] ++ [])), ?_, ?_⟩
    · unfold PathsPortFileProvider.get_control_file
      simp only [hcache, hov]
      refine Eff.bind_of_done h0 ?_
      refine Eff.bind_of_done (a := some loc) rfl ?_
      refine Eff.bind_of_done (a := none) ?_ ?_
      · simp [call, hflags]
      · simp [Map.emplace, hcache, Eff.pure]
    · intro c hc
      simp only [List.nil_append, List.append_nil, List.mem_append, List.mem_singleton] at hc
      rcases hc with hc | rfl
      · exact hnr c hc
      · rfl
  · intro r p' l h hreg
    unfold PathsPortFileProvider.get_control_file at h
    simp only [hcache] at h
    obtain ⟨mp, l1, l2, hov, h2, e1⟩ := Eff.bind_done h
    cases mp with
    | none => exact try_load_overlay_port_none paths n _ _ hov
    | some q =>
      exfalso
      have hnr := try_load_overlay_port_no_registry paths n _ _ _ hov
      obtain ⟨mp2, l3, l4, hq, h3, e2⟩ := Eff.bind_done h2
      obtain ⟨e3, e4⟩ := Eff.pure_done hq
      subst e3
      obtain ⟨l5, h4, e5⟩ := Eff.call_bind_done h3
      have hl5 : l5 = [] := by
        split at h4
        · exact (Eff.pure_done h4).2
        · exact (Eff.pure_done h4).2
      subst e1 e2 e4 e5 hl5
      obtain ⟨c, hc, hcr⟩ := hreg
      simp only [List.nil_append, List.mem_append, List.mem_singleton] at hc
      rcases hc with hc | rfl
      · rw [hnr c hc] at hcr
        cases hcr
      · cases hcr

theorem get_control_file_overlay_precedence_witness :
    Map.find "foo" demoProvider3.cache = none ∧
    (∃ l, PathsPortFileProvider.get_control_file demoPaths demoProvider3 "foo" =
        .done ((.ok fooOverlay,
          { demoProvider3 with cache := demoProvider3.cache ++ [("foo", fooOverlay)] }), l) ∧
      ∀ c ∈ l, c.is_registry = false) :=
  ⟨rfl, (get_control_file_overlay_precedence demoPaths demoProvider3 "foo" rfl).1
    ["/ov/zlib"] "/ov/single" ["/ov/multi"] fooOverlay rfl (by decide) rfl rfl⟩

/-! ## C3: `load_all_control_files` returns each name once, overlays first -/

theorem load_all_add_inv (acc : Map String SourceControlFileLocation × List SourceControlFileLocation)
    (x : SourceControlFileLocation) (hinv : LoadAllInv acc) :
    LoadAllInv (load_all_add acc x) ∧
      ∀ n, (load_all_add acc x).2.find? (declares n) = (acc.2 ++ [x]).find? (declares n) := by
  obtain ⟨hfind, hnd⟩ := hinv
  unfold load_all_add
  dsimp only
  cases hc : Map.find x.source_control_file.core_paragraph.name acc.1 with
  | none =>
    simp only [Map.emplace_of_find_none _ _ _ hc]
    refine ⟨⟨?_, ?_⟩, fun n => by trivial⟩
    · intro k
      rw [Map.find_append, List.find?_append, hfind k]
      cases List.find? (declares k) acc.2 with
      | some v => rfl
      | none =>
        by_cases hk : x.source_control_file.core_paragraph.name = k
        · simp [Map.find, declares, hk]
        · simp [Map.find, declares, hk]
    · rw [List.map_append, List.nodup_append]
      refine ⟨hnd, by simp, ?_⟩
      intro a ha hb
      simp only [List.map_cons, List.map_nil, List.mem_singleton] at hb
      subst hb
      rw [hfind, List.find?_eq_none] at hc
      obtain ⟨y, hy, hya⟩ := List.mem_map.1 ha
      exact hc y hy (by simpa [declares] using hya)
  | some v =>
    refine ⟨⟨hfind, hnd⟩, fun n => ?_⟩
    rw [List.find?_append]
    cases hr : List.find? (declares n) acc.2 with
    | some w => rfl
    | none =>
      have hne : ¬ x.source_control_file.core_paragraph.name = n := by
        intro he
        rw [he, hfind n, hr] at hc
        cases hc
      simp [declares, hne]

theorem load_all_foldl_inv (xs : List SourceControlFileLocation) :
    ∀ acc : Map String SourceControlFileLocation × List SourceControlFileLocation,
      LoadAllInv acc →
      LoadAllInv (xs.foldl load_all_add acc) ∧
        ∀ n, (xs.foldl load_all_add acc).2.find? (declares n) =
          (acc.2 ++ xs).find? (declares n) := by
  induction xs with
  | nil => intro acc hinv; exact ⟨hinv, fun n => by simp⟩
  | cons x xs ih =>
    intro acc hinv
    obtain ⟨h1, h2⟩ := load_all_add_inv acc x hinv
    obtain ⟨h3, h4⟩ := ih _ h1
    refine ⟨h3, fun n => ?_⟩
    rw [List.foldl_cons, h4 n, List.find?_append, h2 n]
    simp only [List.find?_append, Option.or_assoc]
    congr 1
    by_cases hx : declares n x = true
    · simp [hx]
    · simp [hx]

theorem load_all_overlays_eq (paths : VcpkgPaths) :
    ∀ (overlays : List Path)
      (acc acc' : Map String SourceControlFileLocation × List SourceControlFileLocation)
      (l : List Call), load_all_overlays paths overlays acc = .done (acc', l) →
      acc' = (overlays.flatMap (overlay_contents paths)).foldl load_all_add acc := by
  intro overlays
  induction overlays with
  | nil =>
    intro acc acc' l h
    obtain ⟨h1, -⟩ := Eff.pure_done h
    simp [← h1]
  | cons d rest ih =>
    intro acc acc' l h
    unfold load_all_overlays at h
    obtain ⟨l1, h1, -⟩ := Eff.call_bind_done h
    split at h1
    · rename_i hs
      obtain ⟨l2, h2, -⟩ := Eff.call_bind_done h1
      split at h2
      · rename_i scf hl
        rw [ih _ _ _ h2]
        simp [overlay_contents, hs, hl, List.foldl_append]
      · simp [exit_with_message] at h2
    · rename_i hs
      obtain ⟨found, l2, hf, h2, -⟩ := callOutcome_bind_done h1
      rw [ih _ _ _ h2]
      simp [overlay_contents, hs, hf, List.foldl_append]

theorem filter_declares_of_nodup (n : String) :
    ∀ r : List SourceControlFileLocation, (r.map (·.name)).Nodup →
      r.filter (declares n) = (r.find? (declares n)).toList := by
  intro r
  induction r with
  | nil => intro _; rfl
  | cons y r ih =>
    intro hnd
    rw [List.map_cons, List.nodup_cons] at hnd
    by_cases hy : declares n y = true
    · rw [List.filter_cons_of_pos hy, List.find?_cons_of_pos _ hy]
      have : r.filter (declares n) = [] := by
        rw [List.filter_eq_nil_iff]
        intro z hz hzn
        apply hnd.1
        have h1 : y.name = n := by simpa [declares] using hy
        have h2 : z.name = n := by simpa [declares] using hzn
        exact List.mem_map.2 ⟨z, hz, by show z.name = y.name; rw [h1, h2]⟩
      rw [this]
      rfl
    · rw [List.filter_cons_of_neg hy, List.find?_cons_of_neg _ hy]
      exact ih hnd.2

/-- C3: the sequence `load_all_control_files` returns holds no two entries
declaring the same name; and when the overlay list is `pre ++ d :: post`, no
port read from an entry of `pre` declares `n`, `x` is the (first) port declaring
`n` read from `d`, and the registry enumeration also holds a port declaring `n`,
the entries of the result declaring `n` are exactly `[x]`. -/
theorem load_all_control_files_distinct_overlay_first (paths : VcpkgPaths)
    (p p' : PathsPortFileProvider) (ret : List SourceControlFileLocation) (l : List Call)
    (h : PathsPortFileProvider.load_all_control_files paths p = .done ((ret, p'), l)) :
    (ret.map (fun y => y.source_control_file.core_paragraph.name)).Nodup ∧
    ∀ (n : String) (pre : List Path) (d : Path) (post : List Path)
      (x : SourceControlFileLocation),
      p.overlay_ports = pre ++ d :: post →
      (∀ e ∈ pre, ∀ y ∈ overlay_contents paths e, y.source_control_file.core_paragraph.name ≠ n) →
      (overlay_contents paths d).find? (declares n) = some x →
      (∃ regs, paths.load_all_registry_ports = .done regs ∧
        ∃ y ∈ regs, y.source_control_file.core_paragraph.name = n) →
      ret.filter (declares n) = [x] := by
  unfold PathsPortFileProvider.load_all_control_files at h
  obtain ⟨acc, l1, l2, hov, h2, -⟩ := Eff.bind_done h
  obtain ⟨regs, l3, hregs, h3, -⟩ := callOutcome_bind_done h2
  obtain ⟨e1, -⟩ := Eff.pure_done h3
  have hacc := load_all_overlays_eq paths _ _ _ _ hov
  have h0 : LoadAllInv (([], []) :
      Map String SourceControlFileLocation × List SourceControlFileLocation) :=
    ⟨fun k => rfl, List.nodup_nil⟩
  obtain ⟨hi1, hf1⟩ := load_all_foldl_inv (p.overlay_ports.flatMap (overlay_contents paths)) _ h0
  rw [← hacc] at hi1 hf1
  obtain ⟨hi2, hf2⟩ := load_all_foldl_inv regs acc hi1
  have hret : ret = (regs.foldl load_all_add acc).2 := by
    cases e1
    rfl
  have hnd : (ret.map (·.name)).Nodup := by
    rw [hret]
    exact hi2.2
  refine ⟨hnd, ?_⟩
  intro n pre d post x hovl hpre hd _
  rw [filter_declares_of_nodup n ret hnd, hret, hf2 n, List.find?_append, hf1 n, hovl]
  have hpre' : List.find? (declares n) (pre.flatMap (overlay_contents paths)) = none := by
    rw [List.find?_eq_none]
    intro y hy
    obtain ⟨e, he, hye⟩ := List.mem_flatMap.1 hy
    simpa [declares] using hpre e he y hye
  simp [List.flatMap_append, List.find?_append, hpre', hd]

theorem load_all_control_files_distinct_overlay_first_witness :
    PathsPortFileProvider.load_all_control_files demoPaths demoProvider3 =
      .done ((demoAll, { demoProvider3 with cache := demoAll.map fun y => (y.name, y) }),
        [Call.is_port_directory "/ov/zlib", Call.try_load_port "/ov/zlib",
         Call.is_port_directory "/ov/single", Call.try_load_port "/ov/single",
         Call.is_port_directory "/ov/multi", Call.load_overlay_ports "/ov/multi",
         Call.load_all_registry_ports]) ∧
    (demoAll.map (fun y => y.source_control_file.core_paragraph.name)).Nodup ∧
    demoAll.filter (declares "foo") = [fooOverlay] :=
  have hrun : PathsPortFileProvider.load_all_control_files demoPaths demoProvider3 =
      .done ((demoAll, { demoProvider3 with cache := demoAll.map fun y => (y.name, y) }),
        [Call.is_port_directory "/ov/zlib", Call.try_load_port "/ov/zlib",
         Call.is_port_directory "/ov/single", Call.try_load_port "/ov/single",
         Call.is_port_directory "/ov/multi", Call.load_overlay_ports "/ov/multi",
         Call.load_all_registry_ports]) := by rfl
  have hthm := load_all_control_files_distinct_overlay_first demoPaths demoProvider3 _ _ _ hrun
  ⟨hrun, hthm.1, hthm.2 "foo" ["/ov/zlib"] "/ov/single" ["/ov/multi"] fooOverlay rfl
    (by decide) rfl ⟨_, rfl, ⟨mkScf "foo" "B" 0, "/vcpkg/ports/foo"⟩, by decide, rfl⟩⟩

/-! ## C4: a second lookup is answered from the cache -/

theorem PathsPortFileProvider.get_control_file_of_cached (paths : VcpkgPaths)
    (p : PathsPortFileProvider) (n : String) (loc : SourceControlFileLocation)
    (h : Map.find n p.cache = some loc) :
    PathsPortFileProvider.get_control_file paths p n = .done ((.ok loc, p), []) := by
  unfold PathsPortFileProvider.get_control_file
  simp only [h]
  rfl

theorem PathsPortFileProvider.get_control_file_ok_cached (paths : VcpkgPaths)
    (p p' : PathsPortFileProvider) (n : String) (loc : SourceControlFileLocation)
    (l : List Call)
    (h : PathsPortFileProvider.get_control_file paths p n = .done ((.ok loc, p'), l)) :
    Map.find n p'.cache = some loc := by
  unfold PathsPortFileProvider.get_control_file at h
  split at h
  · rename_i cached hfind
    obtain ⟨h1, -⟩ := Eff.pure_done h
    cases h1
    exact hfind
  · obtain ⟨mp, l1, l2, -, h2, -⟩ := Eff.bind_done h
    obtain ⟨mp2, l3, l4, -, h3, -⟩ := Eff.bind_done h2
    split at h3
    · obtain ⟨l5, h4, -⟩ := Eff.call_bind_done h3
      split at h4
      · obtain ⟨h5, -⟩ := Eff.pure_done h4
        cases h5
      · obtain ⟨h5, -⟩ := Eff.pure_done h4
        cases h5
        exact Map.find_emplace_self _ _ _
    · obtain ⟨h5, -⟩ := Eff.pure_done h3
      cases h5

/-- C4: when `get_control_file(n)` returns a control-file location, the next
`get_control_file(n)` on the resulting provider returns the same location, which
is the cache element of `n`, leaves the provider (its cache) unchanged and makes
no collaborator call at all. -/
theorem get_control_file_twice_cached (paths : VcpkgPaths) (p p' : PathsPortFileProvider)
    (n : String) (loc : SourceControlFileLocation) (l : List Call)
    (h : PathsPortFileProvider.get_control_file paths p n = .done ((.ok loc, p'), l)) :
    PathsPortFileProvider.get_control_file paths p' n = .done ((.ok loc, p'), []) ∧
      Map.find n p'.cache = some loc :=
  ⟨PathsPortFileProvider.get_control_file_of_cached paths p' n loc
      (PathsPortFileProvider.get_control_file_ok_cached paths p p' n loc l h),
    PathsPortFileProvider.get_control_file_ok_cached paths p p' n loc l h⟩

theorem get_control_file_twice_cached_witness :
    PathsPortFileProvider.get_control_file demoPaths demoProvider "bar" =
      .done ((.ok barRegistry, { demoProvider with cache := [("bar", barRegistry)] }),
        [Call.is_port_directory "/ov/single", Call.try_load_port "/ov/single",
         Call.is_port_directory "/ov/multi", Call.is_port_directory "/ov/multi/bar",
         Call.registry_for_port "bar", Call.registry_get_baseline_version "bar",
         Call.registry_get_port_entry "bar",
         Call.entry_get_port_directory "bar" ⟨"1.0", 0⟩,
         Call.try_load_port "/vcpkg/ports/bar",
         Call.check_against_feature_flags barRegistry]) ∧
    PathsPortFileProvider.get_control_file demoPaths
        { demoProvider with cache := [("bar", barRegistry)] } "bar" =
      .done ((.ok barRegistry, { demoProvider with cache := [("bar", barRegistry)] }), []) ∧
    Map.find "bar" [("bar", barRegistry)] = some barRegistry :=
  have hrun : PathsPortFileProvider.get_control_file demoPaths demoProvider "bar" =
      .done ((.ok barRegistry, { demoProvider with cache := [("bar", barRegistry)] }),
        [Call.is_port_directory "/ov/single", Call.try_load_port "/ov/single",
         Call.is_port_directory "/ov/multi", Call.is_port_directory "/ov/multi/bar",
         Call.registry_for_port "bar", Call.registry_get_baseline_version "bar",
         Call.registry_get_port_entry "bar",
         Call.entry_get_port_directory "bar" ⟨"1.0", 0⟩,
         Call.try_load_port "/vcpkg/ports/bar",
         Call.check_against_feature_flags barRegistry]) := by rfl
  ⟨hrun, get_control_file_twice_cached demoPaths demoProvider _ "bar" barRegistry _ hrun⟩

/-! ## C5: the baseline version of a port -/

theorem construct_no_overlays (paths : VcpkgPaths) :
    PathsPortFileProvider.construct paths [] = .done (freshProvider, []) := rfl

/-- On a provider without overlays and without a cache element for `n`,
`get_control_file(n)` does what it does on a fresh provider; the cache grows by
what the fresh provider would cache. -/
theorem get_control_file_as_fresh (paths : VcpkgPaths) (prov : PathsPortFileProvider)
    (n : String) (hov : prov.overlay_ports = []) (hfind : Map.find n prov.cache = none) :
    PathsPortFileProvider.get_control_file paths prov n =
      match PathsPortFileProvider.get_control_file paths freshProvider n with
      | .done ((r, f), l) => .done ((r, { prov with cache := prov.cache ++ f.cache }), l)
      | .exit m => .exit m
      | .threw w => .threw w := by
  obtain ⟨ov, cache⟩ := prov
  simp only at hov hfind
  subst hov
  unfold PathsPortFileProvider.get_control_file
  simp only [hfind, freshProvider, Map.find, try_load_overlay_port]
  cases hreg : try_load_registry_port paths n with
  | exit m => simp [Eff.bind, Eff.pure]
  | threw w => simp [Eff.bind, Eff.pure]
  | done a =>
    obtain ⟨mp, l⟩ := a
    cases mp with
    | none => simp [Eff.bind, Eff.pure]
    | some q =>
      cases hflag : paths.check_against_feature_flags q.source_control_file q.source_location with
      | some e => simp [Eff.bind, Eff.pure, call, hflag]
      | none => simp [Eff.bind, Eff.pure, call, hflag, Map.emplace, hfind, Map.find]

theorem get_control_file_fresh_cache (paths : VcpkgPaths) (n : String)
    (r : ExpectedS SourceControlFileLocation) (f : PathsPortFileProvider) (l : List Call)
    (h : PathsPortFileProvider.get_control_file paths freshProvider n = .done ((r, f), l)) :
    f.cache = [] ∨ ∃ q, f.cache = [(n, q)] ∧ r = .ok q := by
  unfold PathsPortFileProvider.get_control_file at h
  simp only [freshProvider, Map.find] at h
  obtain ⟨mp, l1, l2, -, h2, -⟩ := Eff.bind_done h
  obtain ⟨mp2, l3, l4, -, h3, -⟩ := Eff.bind_done h2
  split at h3
  · rename_i q
    obtain ⟨l5, h4, -⟩ := Eff.call_bind_done h3
    split at h4
    · obtain ⟨h5, -⟩ := Eff.pure_done h4
      cases h5
      exact Or.inl rfl
    · obtain ⟨h5, -⟩ := Eff.pure_done h4
      cases h5
      exact Or.inr ⟨q, rfl, rfl⟩
  · obtain ⟨h5, -⟩ := Eff.pure_done h3
    cases h5
    exact Or.inl rfl

/-- The fallback provider answers as a fresh provider without overlays does, and
keeps its invariant. -/
theorem get_control_file_fallback (paths : VcpkgPaths) (prov : PathsPortFileProvider)
    (n : String) (hov : prov.overlay_ports = []) (hinv : FreshInv paths prov) :
    match PathsPortFileProvider.get_control_file paths freshProvider n with
    | .done ((r, _), _) =>
      ∃ prov' l, PathsPortFileProvider.get_control_file paths prov n = .done ((r, prov'), l) ∧
        prov'.overlay_ports = [] ∧ FreshInv paths prov'
    | .exit m => PathsPortFileProvider.get_control_file paths prov n = .exit m
    | .threw w => PathsPortFileProvider.get_control_file paths prov n = .threw w := by
  cases hfind : Map.find n prov.cache with
  | some v =>
    obtain ⟨f, l, hf⟩ := hinv n v hfind
    rw [hf]
    exact ⟨prov, [], PathsPortFileProvider.get_control_file_of_cached paths prov n v hfind,
      hov, hinv⟩
  | none =>
    rw [get_control_file_as_fresh paths prov n hov hfind]
    cases hf : PathsPortFileProvider.get_control_file paths freshProvider n with
    | exit m => rfl
    | threw w => rfl
    | done a =>
      obtain ⟨⟨r, f⟩, l⟩ := a
      refine ⟨_, l, rfl, hov, ?_⟩
      intro k v hk
      simp only [Map.find_append] at hk
      cases hpk : Map.find k prov.cache with
      | some v' =>
        rw [hpk] at hk
        simp only [Option.some.injEq] at hk
        subst hk
        exact hinv k v' hpk
      | none =>
        rw [hpk] at hk
        rcases get_control_file_fresh_cache paths n r f l hf with hc | ⟨q, hc, hr⟩
        · rw [hc] at hk
          simp [Map.find] at hk
        · rw [hc] at hk
          simp only [Map.find] at hk
          split at hk
          · rename_i hnk
            cases hk
            subst hnk
            subst hr
            exact ⟨f, l, hf⟩
          · cases hk

theorem parse_baseline_or_exit_done {paths : VcpkgPaths} {file : Path} {m : Map String VersionT}
    {l : List Call} (h : parse_baseline_or_exit paths file = .done (m, l)) :
    paths.parse_baseline_file file = some m := by
  unfold parse_baseline_or_exit at h
  obtain ⟨l1, h1, -⟩ := Eff.call_bind_done h
  split at h1
  · rename_i m' hm
    obtain ⟨e, -⟩ := Eff.pure_done h1
    rw [hm, e]
  · simp [exit_with_message] at h1

theorem BaselineProviderImpl.get_baseline_cache_inv (paths : VcpkgPaths)
    (b b' : BaselineProviderImpl) (r : Option (Map String VersionT)) (l : List Call)
    (hinv : BaselineInv paths b)
    (h : BaselineProviderImpl.get_baseline_cache paths b = .done ((r, b'), l)) :
    BaselineInv paths b' ∧ b'.m_baseline = b.m_baseline ∧ b'.baseline_cache = some r := by
  unfold BaselineProviderImpl.get_baseline_cache at h
  split at h
  · rename_i value hv
    obtain ⟨e, -⟩ := Eff.pure_done h
    cases e
    exact ⟨hinv, rfl, hv⟩
  · split at h
    · rename_i baseline hb
      obtain ⟨mf, l1, l2, hjp, h1, -⟩ := Eff.bind_done h
      split at h1
      · simp [exit_with_message] at h1
      · rename_i file
        obtain ⟨m, l3, l4, hparse, h2, -⟩ := Eff.bind_done h1
        obtain ⟨e, -⟩ := Eff.pure_done h2
        cases e
        refine ⟨?_, rfl, rfl⟩
        unfold get_baseline_json_path at hjp
        obtain ⟨l5, hjp1, -⟩ := Eff.call_bind_done hjp
        obtain ⟨l6, hjp2, -⟩ := Eff.call_bind_done hjp1
        split at hjp2
        · rename_i hex
          obtain ⟨e2, -⟩ := Eff.pure_done hjp2
          cases e2
          exact Or.inl ⟨baseline, hb, hex, parse_baseline_or_exit_done hparse⟩
        · obtain ⟨e2, -⟩ := Eff.pure_done hjp2
          cases e2
    · rename_i hb
      obtain ⟨l1, h1, -⟩ := Eff.call_bind_done h
      split at h1
      · rename_i hex
        obtain ⟨m, l3, l4, hparse, h2, -⟩ := Eff.bind_done h1
        obtain ⟨e, -⟩ := Eff.pure_done h2
        cases e
        refine ⟨?_, rfl, rfl⟩
        exact Or.inr ⟨hb, hex, parse_baseline_or_exit_done hparse⟩
      · rename_i hex
        obtain ⟨prov, l3, l4, hp, h2, -⟩ := Eff.bind_done h1
        obtain ⟨e, -⟩ := Eff.pure_done h2
        cases e
        rw [construct_no_overlays] at hp
        cases hp
        refine ⟨?_, rfl, rfl⟩
        refine ⟨hb, by simpa using hex, freshProvider, rfl, rfl, ?_⟩
        intro k v hk
        simp [freshProvider, Map.find] at hk

theorem BaselineProviderImpl.get_baseline_version_inv (paths : VcpkgPaths)
    (b b' : BaselineProviderImpl) (n : String) (r : Option VersionT) (l : List Call)
    (hinv : BaselineInv paths b)
    (h : BaselineProviderImpl.get_baseline_version paths b n = .done ((r, b'), l)) :
    BaselineInv paths b' ∧ b'.m_baseline = b.m_baseline := by
  unfold BaselineProviderImpl.get_baseline_version at h
  obtain ⟨⟨rc, b1⟩, l1, l2, hc, h1, -⟩ := Eff.bind_done h
  obtain ⟨hinv1, hmb, hbc⟩ :=
    BaselineProviderImpl.get_baseline_cache_inv paths b b1 rc l1 hinv hc
  dsimp only at h1
  split at h1
  · obtain ⟨e, -⟩ := Eff.pure_done h1
    cases e
    exact ⟨hinv1, hmb⟩
  · unfold BaselineInv at hinv1
    rw [hbc] at hinv1
    obtain ⟨hnb, hnex, prov, hprov, hov, hfresh⟩ := hinv1
    rw [hprov] at h1
    dsimp only at h1
    obtain ⟨⟨g1, g2⟩, l3, l4, hg, h2, -⟩ := Eff.bind_done h1
    have hfb := get_control_file_fallback paths prov n hov hfresh
    have hg2 : g2.overlay_ports = [] ∧ FreshInv paths g2 := by
      cases hf : PathsPortFileProvider.get_control_file paths freshProvider n with
      | exit m => rw [hf] at hfb; rw [hfb] at hg; cases hg
      | threw w => rw [hf] at hfb; rw [hfb] at hg; cases hg
      | done a =>
        rw [hf] at hfb
        obtain ⟨prov', l', hp, hov', hfresh'⟩ := hfb
        rw [hp] at hg
        cases hg
        exact ⟨hov', hfresh'⟩
    have hb' : b'.baseline_cache = some none ∧ b'.m_portfile_provider = some g2 ∧
        b'.m_baseline = b1.m_baseline := by
      dsimp only at h2
      split at h2
      · obtain ⟨e, -⟩ := Eff.pure_done h2
        cases e
        exact ⟨hbc, rfl, rfl⟩
      · obtain ⟨e, -⟩ := Eff.pure_done h2
        cases e
        exact ⟨hbc, rfl, rfl⟩
    refine ⟨?_, hb'.2.2.trans hmb⟩
    unfold BaselineInv
    rw [hb'.1]
    exact ⟨hb'.2.2.trans hnb, hnex, g2, hb'.2.1, hg2.1, hg2.2⟩

theorem BaselineProviderImpl.Reachable.baselineInv {paths : VcpkgPaths} {b : BaselineProviderImpl}
    (hr : BaselineProviderImpl.Reachable paths b) : BaselineInv paths b := by
  induction hr with
  | construct => simp [BaselineInv, BaselineProviderImpl.construct]
  | construct_with baseline => simp [BaselineInv, BaselineProviderImpl.construct_with]
  | get_baseline_cache b b' r l _ h ih =>
    exact (BaselineProviderImpl.get_baseline_cache_inv paths b b' r l ih h).1
  | get_baseline_version b b' n r l _ h ih =>
    exact (BaselineProviderImpl.get_baseline_version_inv paths b b' n r l ih h).1

theorem BaselineProviderImpl.get_baseline_version_of_map (paths : VcpkgPaths)
    (b b1 : BaselineProviderImpl) (n : String) (m : Map String VersionT) (l1 : List Call)
    (h : BaselineProviderImpl.get_baseline_cache paths b = .done ((some m, b1), l1)) :
    BaselineProviderImpl.get_baseline_version paths b n = .done ((Map.find n m, b1), l1) := by
  unfold BaselineProviderImpl.get_baseline_version
  rw [h]
  simp [Eff.bind, Eff.pure]

theorem parse_baseline_or_exit_of_some {paths : VcpkgPaths} {file : Path}
    {m : Map String VersionT} (h : paths.parse_baseline_file file = some m) :
    parse_baseline_or_exit paths file = .done (m, [Call.parse_baseline_file file]) := by
  simp [parse_baseline_or_exit, h, Eff.bind, Eff.pure, call]

theorem BaselineProviderImpl.get_baseline_cache_explicit (paths : VcpkgPaths)
    (b : BaselineProviderImpl) (sha : String) (m : Map String VersionT)
    (hinv : BaselineInv paths b) (hb : b.m_baseline = some sha)
    (hex : paths.fs_exists (paths.git_checkout_baseline sha) = true)
    (hparse : paths.parse_baseline_file (paths.git_checkout_baseline sha) = some m) :
    ∃ b1 l1, BaselineProviderImpl.get_baseline_cache paths b = .done ((some m, b1), l1) := by
  unfold BaselineProviderImpl.get_baseline_cache
  cases hc : b.baseline_cache with
  | none =>
    simp [hb, get_baseline_json_path, Eff.bind, Eff.pure, call, hex,
      parse_baseline_or_exit_of_some hparse]
  | some v =>
    unfold BaselineInv at hinv
    rw [hc] at hinv
    cases v with
    | none =>
      rw [hb] at hinv
      exact absurd hinv.1 (by simp)
    | some m' =>
      rcases hinv with ⟨sha', h1, -, h3⟩ | ⟨h1, -, -⟩
      · rw [hb] at h1
        cases h1
        rw [hparse] at h3
        cases h3
        exact ⟨b, [], rfl⟩
      · rw [hb] at h1
        cases h1

theorem BaselineProviderImpl.get_baseline_cache_local (paths : VcpkgPaths)
    (b : BaselineProviderImpl) (m : Map String VersionT)
    (hinv : BaselineInv paths b) (hb : b.m_baseline = none)
    (hex : paths.fs_exists (local_baseline_file paths) = true)
    (hparse : paths.parse_baseline_file (local_baseline_file paths) = some m) :
    ∃ b1 l1, BaselineProviderImpl.get_baseline_cache paths b = .done ((some m, b1), l1) := by
  unfold BaselineProviderImpl.get_baseline_cache
  cases hc : b.baseline_cache with
  | none =>
    simp [hb, Eff.bind, Eff.pure, call, hex, parse_baseline_or_exit_of_some hparse]
  | some v =>
    unfold BaselineInv at hinv
    rw [hc] at hinv
    cases v with
    | none =>
      rw [hex] at hinv
      exact absurd hinv.2.1 (by simp)
    | some m' =>
      rcases hinv with ⟨sha', h1, -, -⟩ | ⟨-, -, h3⟩
      · rw [hb] at h1
        cases h1
      · rw [hparse] at h3
        cases h3
        exact ⟨b, [], rfl⟩

theorem BaselineProviderImpl.get_baseline_cache_fallback (paths : VcpkgPaths)
    (b : BaselineProviderImpl) (hinv : BaselineInv paths b) (hb : b.m_baseline = none)
    (hex : paths.fs_exists (local_baseline_file paths) = false) :
    ∃ b1 l1 prov, BaselineProviderImpl.get_baseline_cache paths b = .done ((none, b1), l1) ∧
      b1.m_portfile_provider = some prov ∧ prov.overlay_ports = [] ∧ FreshInv paths prov := by
  unfold BaselineProviderImpl.get_baseline_cache
  cases hc : b.baseline_cache with
  | none =>
    have hfresh : FreshInv paths freshProvider := by
      intro k v hk
      simp [freshProvider, Map.find] at hk
    refine ⟨{ b with baseline_cache := some none, m_portfile_provider := some freshProvider },
      [Call.fs_exists (local_baseline_file paths)], freshProvider, ?_, rfl, rfl, hfresh⟩
    simp [hb, Eff.bind, Eff.pure, call, hex, construct_no_overlays]
  | some v =>
    unfold BaselineInv at hinv
    rw [hc] at hinv
    cases v with
    | none =>
      obtain ⟨-, -, prov, h1, h2, h3⟩ := hinv
      exact ⟨b, [], prov, rfl, h1, h2, h3⟩
    | some m' =>
      rcases hinv with ⟨sha', h1, -, -⟩ | ⟨-, h2, -⟩
      · rw [hb] at h1
        cases h1
      · rw [hex] at h2
        cases h2

/-- C5: `get_baseline_version(n)` on any reachable `BaselineProviderImpl`.
With an explicit baseline whose checked-out file exists and parses to the map
`m`, and with no explicit baseline but an existing local baseline file parsing
to `m`, the result is the version of `n` in `m`, `none` when `n` is not a key.
With no explicit baseline and no local baseline file, the result follows what a
`PathsPortFileProvider` constructed with no overlays resolves for `n`: the
`(version, port_version)` of the control file when it resolves, `none` when the
resolve gives an error, and the same termination when the resolve terminates. -/
theorem get_baseline_version_spec (paths : VcpkgPaths) (b : BaselineProviderImpl) (n : String)
    (hr : BaselineProviderImpl.Reachable paths b) :
    (∀ (sha : String) (m : Map String VersionT), b.m_baseline = some sha →
      paths.fs_exists (paths.git_checkout_baseline sha) = true →
      paths.parse_baseline_file (paths.git_checkout_baseline sha) = some m →
      ∃ b' l, BaselineProviderImpl.get_baseline_version paths b n =
        .done ((Map.find n m, b'), l)) ∧
    (∀ m : Map String VersionT, b.m_baseline = none →
      paths.fs_exists (local_baseline_file paths) = true →
      paths.parse_baseline_file (local_baseline_file paths) = some m →
      ∃ b' l, BaselineProviderImpl.get_baseline_version paths b n =
        .done ((Map.find n m, b'), l)) ∧
    (b.m_baseline = none → paths.fs_exists (local_baseline_file paths) = false →
      match PathsPortFileProvider.get_control_file paths freshProvider n with
      | .done ((.ok loc, _), _) =>
        ∃ b' l, BaselineProviderImpl.get_baseline_version paths b n =
          .done ((some { text := loc.source_control_file.core_paragraph.version
                         port_version := loc.source_control_file.core_paragraph.port_version },
            b'), l)
      | .done ((.error _, _), _) =>
        ∃ b' l, BaselineProviderImpl.get_baseline_version paths b n = .done ((none, b'), l)
      | .exit msg => BaselineProviderImpl.get_baseline_version paths b n = .exit msg
      | .threw w => BaselineProviderImpl.get_baseline_version paths b n = .threw w) := by
  have hinv := hr.baselineInv
  refine ⟨?_, ?_, ?_⟩
  · intro sha m hb hex hparse
    obtain ⟨b1, l1, hc⟩ :=
      BaselineProviderImpl.get_baseline_cache_explicit paths b sha m hinv hb hex hparse
    exact ⟨b1, l1, BaselineProviderImpl.get_baseline_version_of_map paths b b1 n m l1 hc⟩
  · intro m hb hex hparse
    obtain ⟨b1, l1, hc⟩ :=
      BaselineProviderImpl.get_baseline_cache_local paths b m hinv hb hex hparse
    exact ⟨b1, l1, BaselineProviderImpl.get_baseline_version_of_map paths b b1 n m l1 hc⟩
  · intro hb hex
    obtain ⟨b1, l1, prov, hc, hprov, hov, hfresh⟩ :=
      BaselineProviderImpl.get_baseline_cache_fallback paths b hinv hb hex
    have hfb := get_control_file_fallback paths prov n hov hfresh
    unfold BaselineProviderImpl.get_baseline_version
    rw [hc]
    cases hf : PathsPortFileProvider.get_control_file paths freshProvider n with
    | exit msg =>
      rw [hf] at hfb
      simp [Eff.bind, hprov, hfb]
    | threw w =>
      rw [hf] at hfb
      simp [Eff.bind, hprov, hfb]
    | done a =>
      obtain ⟨⟨r, f⟩, l⟩ := a
      rw [hf] at hfb
      obtain ⟨prov', l', hp, -, -⟩ := hfb
      cases r with
      | ok loc => simp [Eff.bind, Eff.pure, hprov, hp]
      | error e => simp [Eff.bind, Eff.pure, hprov, hp]

theorem get_baseline_version_spec_witness :
    BaselineProviderImpl.Reachable demoPaths BaselineProviderImpl.construct ∧
    (∃ b' l, BaselineProviderImpl.get_baseline_version demoPaths BaselineProviderImpl.construct
      "foo" = .done ((some ⟨"B", 0⟩, b'), l)) ∧
    (∃ b' l, BaselineProviderImpl.get_baseline_version demoPaths BaselineProviderImpl.construct
      "nope" = .done ((none, b'), l)) ∧
    (∃ b' l, BaselineProviderImpl.get_baseline_version demoPathsBaseline
      BaselineProviderImpl.construct "foo" = .done ((some ⟨"2.0", 1⟩, b'), l)) ∧
    (∃ b' l, BaselineProviderImpl.get_baseline_version demoPathsBaseline
      BaselineProviderImpl.construct "bar" = .done ((none, b'), l)) :=
  ⟨.construct,
   (get_baseline_version_spec demoPaths BaselineProviderImpl.construct "foo" .construct).2.2
     rfl rfl,
   (get_baseline_version_spec demoPaths BaselineProviderImpl.construct "nope" .construct).2.2
     rfl rfl,
   (get_baseline_version_spec demoPathsBaseline BaselineProviderImpl.construct "foo"
     .construct).2.1 [("foo", ⟨"2.0", 1⟩)] rfl rfl rfl,
   (get_baseline_version_spec demoPathsBaseline BaselineProviderImpl.construct "bar"
     .construct).2.1 [("foo", ⟨"2.0", 1⟩)] rfl rfl rfl⟩

/-! ## C10: a feature-flag error is returned and nothing is cached -/

/-- C10: for a name `n` not in the cache for which the overlays yield a control
file `q`, or the overlays yield none and the registry yields `q`, and for which
the feature-flag check on `q` reports the error `err`, `get_control_file(n)`
returns `err` as an error value (the process goes on) and leaves the provider,
hence its cache, unchanged: `n` is still not cached. -/
theorem get_control_file_feature_flag_error (paths : VcpkgPaths) (p : PathsPortFileProvider)
    (n : String) (q : SourceControlFileLocation) (err : String)
    (hcache : Map.find n p.cache = none)
    (hload : (try_load_overlay_port paths n p.overlay_ports).Returns (some q) ∨
      ((try_load_overlay_port paths n p.overlay_ports).Returns none ∧
        (try_load_registry_port paths n).Returns (some q)))
    (hflag : paths.check_against_feature_flags q.source_control_file q.source_location =
      some err) :
    ∃ l, PathsPortFileProvider.get_control_file paths p n = .done ((.error err, p), l) ∧
      Map.find n p.cache = none := by
  unfold PathsPortFileProvider.get_control_file
  simp only [hcache]
  rcases hload with ⟨l0, h0⟩ | ⟨⟨l0, h0⟩, ⟨l1, h1⟩⟩
  · simp [h0, Eff.bind, Eff.pure, call, hflag]
  · simp [h0, h1, Eff.bind, Eff.pure, call, hflag]

theorem get_control_file_feature_flag_error_witness :
    Map.find "zlib" demoProvider3.cache = none ∧
    (∃ l, PathsPortFileProvider.get_control_file demoPaths demoProvider3 "zlib" =
        .done ((.error "zlib requires the manifests feature flag", demoProvider3), l) ∧
      Map.find "zlib" demoProvider3.cache = none) :=
  ⟨rfl, get_control_file_feature_flag_error demoPaths demoProvider3 "zlib"
    ⟨mkScf "zlib" "1.2" 0, "/ov/zlib"⟩ "zlib requires the manifests feature flag" rfl
    (Or.inl ⟨_, rfl⟩) rfl⟩

/-! ## The version index: what one load adds -/

theorem Map.find_push_back_self {κ ν : Type} [DecidableEq κ] (k : κ) (x : ν) :
    ∀ m : Map κ (List ν),
      Map.find k (Map.push_back k x m) = some ((Map.find k m).getD [] ++ [x]) := by
  intro m
  induction m with
  | nil => simp [Map.push_back, Map.find]
  | cons kv m ih =>
    obtain ⟨k', l⟩ := kv
    by_cases hk : k' = k
    · simp [Map.push_back, Map.find, hk]
    · simp [Map.push_back, Map.find, hk, ih]

theorem Map.find_push_back_of_ne {κ ν : Type} [DecidableEq κ] (k k' : κ) (x : ν) (hne : k ≠ k') :
    ∀ m : Map κ (List ν), Map.find k' (Map.push_back k x m) = Map.find k' m := by
  intro m
  induction m with
  | nil => simp [Map.push_back, Map.find, hne]
  | cons kv m ih =>
    obtain ⟨k2, l⟩ := kv
    by_cases hk : k2 = k
    · subst hk
      simp [Map.push_back, Map.find, hne]
    · by_cases hk2 : k2 = k'
      · subst hk2
        simp [Map.push_back, Map.find, hk]
      · simp [Map.push_back, Map.find, hk, hk2, ih]

theorem add_version_entries_control (port : String) (entries : List VersionDbEntry) :
    ∀ st : VersionedPortfileProviderImpl,
      (entries.foldl (add_version_entry port) st).control_cache = st.control_cache := by
  induction entries with
  | nil => intro st; rfl
  | cons e es ih => intro st; rw [List.foldl_cons, ih]; rfl

theorem add_version_entries_versions_self (port : String) (entries : List VersionDbEntry) :
    ∀ st : VersionedPortfileProviderImpl,
      Map.find port (entries.foldl (add_version_entry port) st).versions_cache =
        if entries = [] then Map.find port st.versions_cache
        else some ((Map.find port st.versions_cache).getD [] ++ entries.map (entry_spec port)) := by
  induction entries with
  | nil => intro st; rfl
  | cons e es ih =>
    intro st
    rw [List.foldl_cons, ih]
    have h1 : Map.find port (add_version_entry port st e).versions_cache =
        some ((Map.find port st.versions_cache).getD [] ++ [entry_spec port e]) :=
      Map.find_push_back_self _ _ _
    rw [h1]
    by_cases hes : es = []
    · subst hes
      simp
    · simp [hes]

theorem add_version_entries_versions_of_ne (port p' : String) (hne : port ≠ p')
    (entries : List VersionDbEntry) :
    ∀ st : VersionedPortfileProviderImpl,
      Map.find p' (entries.foldl (add_version_entry port) st).versions_cache =
        Map.find p' st.versions_cache := by
  induction entries with
  | nil => intro st; rfl
  | cons e es ih =>
    intro st
    rw [List.foldl_cons, ih]
    exact Map.find_push_back_of_ne _ _ _ hne _

theorem add_version_entries_git_tree (port : String) (entries : List VersionDbEntry) :
    ∀ (st : VersionedPortfileProviderImpl) (s : VersionSpec),
      Map.find s (entries.foldl (add_version_entry port) st).git_tree_cache =
        match Map.find s st.git_tree_cache with
        | some t => some t
        | none => if s.port_name = port then first_tree entries s.version else none := by
  induction entries with
  | nil =>
    intro st s
    simp only [List.foldl_nil, first_tree, List.find?_nil, Option.map_none', ite_self]
    cases Map.find s st.git_tree_cache <;> rfl
  | cons e es ih =>
    intro st s
    rw [List.foldl_cons, ih]
    have hgt : (add_version_entry port st e).git_tree_cache =
        (Map.emplace st.git_tree_cache (entry_spec port e) e.git_tree).1 := rfl
    rw [hgt]
    by_cases hs : entry_spec port e = s
    · subst hs
      rw [Map.find_emplace_self]
      cases hold : Map.find (entry_spec port e) st.git_tree_cache with
      | some t => simp [Map.emplace_of_find_some _ _ _ _ hold]
      | none =>
        rw [Map.emplace_of_find_none _ _ _ hold]
        simp [entry_spec, first_tree]
    · rw [Map.find_emplace_of_ne _ _ _ _ hs]
      cases hold : Map.find s st.git_tree_cache with
      | some t => rfl
      | none =>
        by_cases hp : s.port_name = port
        · have hv : ¬ e.version = s.version := by
            intro hv
            apply hs
            cases s
            simp only [entry_spec] at hp hv ⊢
            rw [hp, hv]
          simp [hp, first_tree, hv]
        · simp [hp]

theorem get_port_versions_cached (paths : VcpkgPaths) (st : VersionedPortfileProviderImpl)
    (p : String) (L : List VersionSpec) (h : Map.find p st.versions_cache = some L) :
    VersionedPortfileProviderImpl.get_port_versions paths st p = .done ((L, st), []) := by
  unfold VersionedPortfileProviderImpl.get_port_versions
  simp only [h]
  rfl

theorem get_port_versions_db (paths : VcpkgPaths) (st : VersionedPortfileProviderImpl)
    (p : String) (entries : List VersionDbEntry)
    (hc : Map.find p st.versions_cache = none) (hex : db_exists paths p = true)
    (hparse : db_entries paths p = .ok entries) :
    VersionedPortfileProviderImpl.get_port_versions paths st p =
      if entries = [] then .threw "std::out_of_range"
      else .done ((entries.map (entry_spec p), entries.foldl (add_version_entry p) st),
        [Call.fs_exists (versions_json_path paths p),
         Call.parse_versions_file p (versions_json_path paths p)]) := by
  unfold db_exists at hex
  unfold db_entries at hparse
  unfold VersionedPortfileProviderImpl.get_port_versions
  have hfind := add_version_entries_versions_self p entries st
  rw [hc] at hfind
  by_cases he : entries = []
  · simp only [he, if_true] at hfind ⊢
    simp [hc, get_versions_json_path, Eff.bind, Eff.pure, call, hex, hparse, he, Map.find]
  · simp only [he, if_false] at hfind ⊢
    simp only [Option.getD_none, List.nil_append] at hfind
    simp [hc, get_versions_json_path, Eff.bind, Eff.pure, call, hex, hparse, hfind]

/-- How a returning `get_port_versions` call ran: from the cache, from the
version database, or from the registry fallback. -/
theorem get_port_versions_done (paths : VcpkgPaths) (st st' : VersionedPortfileProviderImpl)
    (p : String) (L : List VersionSpec) (l : List Call)
    (h : VersionedPortfileProviderImpl.get_port_versions paths st p = .done ((L, st'), l)) :
    (Map.find p st.versions_cache = some L ∧ st' = st ∧ l = []) ∨
    (Map.find p st.versions_cache = none ∧ db_exists paths p = true ∧
      ∃ entries, db_entries paths p = .ok entries ∧ entries ≠ [] ∧
        L = entries.map (entry_spec p) ∧ st' = entries.foldl (add_version_entry p) st ∧
        l = [Call.fs_exists (versions_json_path paths p),
             Call.parse_versions_file p (versions_json_path paths p)]) ∨
    (Map.find p st.versions_cache = none ∧ db_exists paths p = false ∧
      ∃ q lr, try_load_registry_port paths p = .done (some q, lr) ∧
        paths.check_against_feature_flags q.source_control_file q.source_location = none ∧
        L = [current_spec p q] ∧
        st' = { st with
          control_cache := (Map.emplace st.control_cache (current_spec p q) q).1
          versions_cache := st.versions_cache ++ [(p, [current_spec p q])] }) := by
  cases hc : Map.find p st.versions_cache with
  | some L' =>
    rw [get_port_versions_cached paths st p L' hc] at h
    cases h
    exact Or.inl ⟨rfl, rfl, rfl⟩
  | none =>
    right
    cases hex : db_exists paths p with
    | true =>
      left
      cases hparse : db_entries paths p with
      | error e =>
        exfalso
        unfold db_exists at hex
        unfold db_entries at hparse
        unfold VersionedPortfileProviderImpl.get_port_versions at h
        simp [hc, get_versions_json_path, Eff.bind, Eff.pure, call, hex, hparse,
          exit_with_message] at h
      | ok entries =>
        rw [get_port_versions_db paths st p entries hc hex hparse] at h
        by_cases he : entries = []
        · simp [he] at h
        · simp only [he, if_false] at h
          cases h
          exact ⟨rfl, rfl, entries, rfl, he, rfl, rfl, rfl⟩
    | false =>
      right
      refine ⟨rfl, rfl, ?_⟩
      unfold db_exists at hex
      unfold VersionedPortfileProviderImpl.get_port_versions at h
      simp only [hc] at h
      obtain ⟨mf, l1, l2, hjp, h1, -⟩ := Eff.bind_done h
      have hmf : ∃ e, mf = .error e := by
        unfold get_versions_json_path at hjp
        obtain ⟨l3, hjp1, -⟩ := Eff.call_bind_done hjp
        simp only [hex, Bool.false_eq_true, if_false] at hjp1
        obtain ⟨e1, -⟩ := Eff.pure_done hjp1
        exact ⟨_, e1.symm⟩
      obtain ⟨e, rfl⟩ := hmf
      dsimp only at h1
      obtain ⟨mp, lr, l4, hreg, h2, -⟩ := Eff.bind_done h1
      cases mp with
      | none => simp [exit_with_message] at h2
      | some q =>
        dsimp only at h2
        obtain ⟨l5, h3, -⟩ := Eff.call_bind_done h2
        cases hflag : paths.check_against_feature_flags q.source_control_file
            q.source_location with
        | some err =>
          rw [hflag] at h3
          simp [exit_with_message] at h3
        | none =>
          rw [hflag] at h3
          dsimp only at h3
          obtain ⟨e1, -⟩ := Eff.pure_done h3
          rw [Map.emplace_of_find_none _ _ _ hc] at e1
          cases e1
          exact ⟨q, lr, hreg, hflag, rfl, rfl⟩

/-! ## The three caches of `VersionedPortfileProviderImpl` agree with the snapshot -/

theorem VersionedInv.construct (paths : VcpkgPaths) :
    VersionedInv paths VersionedPortfileProviderImpl.construct where
  versions := by intro p L h; simp [VersionedPortfileProviderImpl.construct, Map.find] at h
  control := by intro s loc h; simp [VersionedPortfileProviderImpl.construct, Map.find] at h
  indexed := by intro s h; simp [VersionedPortfileProviderImpl.construct, Map.find] at h

theorem VersionedInv.not_indexed {paths : VcpkgPaths} {st : VersionedPortfileProviderImpl}
    (hinv : VersionedInv paths st) (p : String) (hc : Map.find p st.versions_cache = none)
    (s : VersionSpec) (hs : s.port_name = p) :
    Map.find s st.control_cache = none ∧ Map.find s st.git_tree_cache = none := by
  have key : ¬ ((Map.find s st.control_cache).isSome ∨ (Map.find s st.git_tree_cache).isSome) := by
    intro h
    obtain ⟨L, hL, -⟩ := hinv.indexed s h
    rw [hs, hc] at hL
    cases hL
  constructor
  · cases h : Map.find s st.control_cache with
    | none => rfl
    | some x => exact absurd (Or.inl (by simp [h])) key
  · cases h : Map.find s st.git_tree_cache with
    | none => rfl
    | some x => exact absurd (Or.inr (by simp [h])) key

theorem first_tree_some_mem {entries : List VersionDbEntry} {v : VersionT} {t : String}
    (h : first_tree entries v = some t) (port : String) :
    (⟨port, v⟩ : VersionSpec) ∈ entries.map (entry_spec port) := by
  unfold first_tree at h
  cases hf : entries.find? (fun e => decide (e.version = v)) with
  | none => simp [hf] at h
  | some e =>
    have hmem := List.mem_of_find?_eq_some hf
    have hv := List.find?_some hf
    simp only [decide_eq_true_eq] at hv
    exact List.mem_map.2 ⟨e, hmem, by simp [entry_spec, hv]⟩

theorem VersionedInv.add_entries {paths : VcpkgPaths} {st : VersionedPortfileProviderImpl}
    (hinv : VersionedInv paths st) (p : String) (entries : List VersionDbEntry)
    (hc : Map.find p st.versions_cache = none) (hparse : db_entries paths p = .ok entries)
    (he : entries ≠ []) :
    VersionedInv paths (entries.foldl (add_version_entry p) st) := by
  have hgt : ∀ s, Map.find s (entries.foldl (add_version_entry p) st).git_tree_cache =
      match Map.find s st.git_tree_cache with
      | some t => some t
      | none => if s.port_name = p then first_tree entries s.version else none :=
    add_version_entries_git_tree p entries st
  have hvs : Map.find p (entries.foldl (add_version_entry p) st).versions_cache =
      some (entries.map (entry_spec p)) := by
    rw [add_version_entries_versions_self, hc]
    simp [he]
  refine ⟨?_, ?_, ?_⟩
  · intro p' L hL hex
    by_cases hp : p = p'
    · subst hp
      rw [hvs] at hL
      cases hL
      refine ⟨entries, hparse, rfl, fun v => ?_⟩
      rw [hgt, (hinv.not_indexed p hc ⟨p, v⟩ rfl).2]
      simp
    · rw [add_version_entries_versions_of_ne p p' hp] at hL
      obtain ⟨entries', h1, h2, h3⟩ := hinv.versions p' L hL hex
      refine ⟨entries', h1, h2, fun v => ?_⟩
      rw [hgt, ← h3 v]
      cases Map.find (⟨p', v⟩ : VersionSpec) st.git_tree_cache with
      | some t => rfl
      | none =>
        have : ¬ p' = p := fun h => hp h.symm
        simp [this]
  · intro s loc hs hex
    rw [add_version_entries_control] at hs
    exact hinv.control s loc hs hex
  · intro s hs
    rw [add_version_entries_control] at hs
    have hold : (Map.find s st.control_cache).isSome ∨ (Map.find s st.git_tree_cache).isSome →
        ∃ L, Map.find s.port_name (entries.foldl (add_version_entry p) st).versions_cache =
          some L ∧ s ∈ L := by
      intro h
      obtain ⟨L, hL, hmem⟩ := hinv.indexed s h
      have hne : p ≠ s.port_name := by
        intro hp
        rw [← hp, hc] at hL
        cases hL
      exact ⟨L, by rw [add_version_entries_versions_of_ne p _ hne]; exact hL, hmem⟩
    rcases hs with hs | hs
    · exact hold (Or.inl hs)
    · rw [hgt] at hs
      cases hg : Map.find s st.git_tree_cache with
      | some t => exact hold (Or.inr (by simp [hg]))
      | none =>
        rw [hg] at hs
        by_cases hp : s.port_name = p
        · simp only [hp, if_true] at hs
          obtain ⟨t, ht⟩ := Option.isSome_iff_exists.1 hs
          refine ⟨_, by rw [hp]; exact hvs, ?_⟩
          have := first_tree_some_mem ht p
          cases s
          simp only at hp
          subst hp
          exact this
        · simp [hp] at hs

theorem VersionedInv.add_current {paths : VcpkgPaths} {st : VersionedPortfileProviderImpl}
    (hinv : VersionedInv paths st) (p : String) (q : SourceControlFileLocation)
    (hc : Map.find p st.versions_cache = none) (hex : db_exists paths p = false) :
    VersionedInv paths { st with
      control_cache := (Map.emplace st.control_cache (current_spec p q) q).1
      versions_cache := st.versions_cache ++ [(p, [current_spec p q])] } := by
  refine ⟨?_, ?_, ?_⟩
  · intro p' L hL hex'
    simp only [Map.find_append] at hL
    cases hold : Map.find p' st.versions_cache with
    | some L' =>
      rw [hold] at hL
      simp only [Option.some.injEq] at hL
      subst hL
      exact hinv.versions p' L' hold hex'
    | none =>
      rw [hold] at hL
      simp only [Map.find] at hL
      split at hL
      · rename_i hp
        subst hp
        rw [hex] at hex'
        cases hex'
      · cases hL
  · intro s loc hs hex'
    by_cases hsp : current_spec p q = s
    · subst hsp
      rw [show (current_spec p q).port_name = p from rfl, hex] at hex'
      cases hex'
    · simp only at hs
      rw [Map.find_emplace_of_ne _ _ _ _ hsp] at hs
      exact hinv.control s loc hs hex'
  · intro s hs
    simp only at hs ⊢
    by_cases hsp : current_spec p q = s
    · subst hsp
      refine ⟨[current_spec p q], ?_, List.mem_singleton.2 rfl⟩
      rw [Map.find_append, show (current_spec p q).port_name = p from rfl, hc]
      simp [Map.find]
    · rw [Map.find_emplace_of_ne _ _ _ _ hsp] at hs
      obtain ⟨L, hL, hmem⟩ := hinv.indexed s hs
      exact ⟨L, by rw [Map.find_append, hL], hmem⟩

theorem get_port_versions_inv (paths : VcpkgPaths) (st st' : VersionedPortfileProviderImpl)
    (p : String) (L : List VersionSpec) (l : List Call) (hinv : VersionedInv paths st)
    (h : VersionedPortfileProviderImpl.get_port_versions paths st p = .done ((L, st'), l)) :
    VersionedInv paths st' ∧ Map.find p st'.versions_cache = some L := by
  rcases get_port_versions_done paths st st' p L l h with
    ⟨hc, rfl, -⟩ | ⟨hc, hex, entries, hparse, he, rfl, rfl, -⟩ | ⟨hc, hex, q, lr, -, -, rfl, rfl⟩
  · exact ⟨hinv, hc⟩
  · refine ⟨hinv.add_entries p entries hc hparse he, ?_⟩
    rw [add_version_entries_versions_self, hc]
    simp [he]
  · refine ⟨hinv.add_current p q hc hex, ?_⟩
    simp only [Map.find_append, hc, Map.find, if_true]

/-- How a returning `get_control_file` call ran, after the version index of the
port was loaded into the state `st1`. -/
theorem versioned_get_control_file_done (paths : VcpkgPaths)
    (st st' : VersionedPortfileProviderImpl) (s : VersionSpec)
    (r : ExpectedS SourceControlFileLocation) (l : List Call)
    (h : VersionedPortfileProviderImpl.get_control_file paths st s = .done ((r, st'), l)) :
    ∃ L st1 l1, VersionedPortfileProviderImpl.get_port_versions paths st s.port_name =
        .done ((L, st1), l1) ∧
      ((∃ loc, Map.find s st1.control_cache = some loc ∧ r = .ok loc ∧ st' = st1 ∧ l = l1) ∨
       (Map.find s st1.control_cache = none ∧ Map.find s st1.git_tree_cache = none ∧
          (∃ msg, r = .error msg) ∧ st' = st1 ∧ l = l1) ∨
       (∃ t, Map.find s st1.control_cache = none ∧ Map.find s st1.git_tree_cache = some t ∧
          l = l1 ++ [Call.git_checkout_port s.port_name t,
            Call.try_load_port (paths.git_checkout_port s.port_name t)] ∧
          ((∃ scf, paths.try_load_port (paths.git_checkout_port s.port_name t) = .ok scf ∧
              scf.core_paragraph.name = s.port_name ∧
              r = .ok ⟨scf, paths.git_checkout_port s.port_name t⟩ ∧
              st' = { st1 with control_cache := st1.control_cache ++
                [(s, ⟨scf, paths.git_checkout_port s.port_name t⟩)] }) ∨
           ((∃ msg, r = .error msg) ∧ st' = st1 ∧
              ∀ scf, paths.try_load_port (paths.git_checkout_port s.port_name t) = .ok scf →
                scf.core_paragraph.name ≠ s.port_name)))) := by
  unfold VersionedPortfileProviderImpl.get_control_file at h
  obtain ⟨⟨L, st1⟩, l1, l2, hgpv, h1, rfl⟩ := Eff.bind_done h
  refine ⟨L, st1, l1, hgpv, ?_⟩
  dsimp only at h1
  cases hcc : Map.find s st1.control_cache with
  | some loc =>
    rw [hcc] at h1
    obtain ⟨e1, e2⟩ := Eff.pure_done h1
    cases e1
    subst e2
    exact Or.inl ⟨loc, rfl, rfl, rfl, by simp⟩
  | none =>
    rw [hcc] at h1
    dsimp only at h1
    right
    cases hgt : Map.find s st1.git_tree_cache with
    | none =>
      rw [hgt] at h1
      obtain ⟨e1, e2⟩ := Eff.pure_done h1
      cases e1
      subst e2
      exact Or.inl ⟨rfl, rfl, ⟨_, rfl⟩, rfl, by simp⟩
    | some t =>
      rw [hgt] at h1
      dsimp only at h1
      right
      obtain ⟨l3, h2, rfl⟩ := Eff.call_bind_done h1
      obtain ⟨l4, h3, rfl⟩ := Eff.call_bind_done h2
      refine ⟨t, rfl, rfl, ?_⟩
      cases hload : paths.try_load_port (paths.git_checkout_port s.port_name t) with
      | error e =>
        rw [hload] at h3
        obtain ⟨e1, e2⟩ := Eff.pure_done h3
        cases e1
        subst e2
        exact ⟨rfl, Or.inr ⟨⟨_, rfl⟩, rfl, fun scf hscf => by cases hscf⟩⟩
      | ok scf =>
        rw [hload] at h3
        dsimp only at h3
        by_cases hn : scf.core_paragraph.name = s.port_name
        · simp only [hn, if_true] at h3
          obtain ⟨e1, e2⟩ := Eff.pure_done h3
          rw [Map.emplace_of_find_none _ _ _ hcc] at e1
          cases e1
          subst e2
          exact ⟨rfl, Or.inl ⟨scf, rfl, hn, rfl, rfl⟩⟩
        · simp only [hn, if_false] at h3
          obtain ⟨e1, e2⟩ := Eff.pure_done h3
          cases e1
          subst e2
          refine ⟨rfl, Or.inr ⟨⟨_, rfl⟩, rfl, fun scf' hscf => ?_⟩⟩
          cases hscf
          exact hn

theorem VersionedInv.add_control {paths : VcpkgPaths} {st1 : VersionedPortfileProviderImpl}
    (hinv : VersionedInv paths st1) (s : VersionSpec) (t : String) (scf : SourceControlFile)
    (hgt : Map.find s st1.git_tree_cache = some t)
    (hload : paths.try_load_port (paths.git_checkout_port s.port_name t) = .ok scf)
    (hn : scf.core_paragraph.name = s.port_name) :
    VersionedInv paths { st1 with control_cache := st1.control_cache ++
      [(s, ⟨scf, paths.git_checkout_port s.port_name t⟩)] } := by
  refine ⟨hinv.versions, ?_, ?_⟩
  · intro s' loc hs hex
    simp only [Map.find_append] at hs
    cases hold : Map.find s' st1.control_cache with
    | some loc' =>
      rw [hold] at hs
      simp only [Option.some.injEq] at hs
      subst hs
      exact hinv.control s' loc' hold hex
    | none =>
      rw [hold] at hs
      simp only [Map.find] at hs
      split at hs
      · rename_i hss
        subst hss
        cases hs
        obtain ⟨L, hL, -⟩ := hinv.indexed s (Or.inr (by simp [hgt]))
        obtain ⟨entries, h1, -, h3⟩ := hinv.versions s.port_name L hL hex
        refine ⟨entries, t, h1, ?_, hload, hn⟩
        rw [← h3 s.version]
        exact hgt
      · cases hs
  · intro s' hs
    simp only at hs ⊢
    rcases hs with hs | hs
    · simp only [Map.find_append] at hs
      cases hold : Map.find s' st1.control_cache with
      | some loc' => exact hinv.indexed s' (Or.inl (by simp [hold]))
      | none =>
        rw [hold] at hs
        simp only [Map.find] at hs
        split at hs
        · rename_i hss
          subst hss
          exact hinv.indexed s (Or.inr (by simp [hgt]))
        · simp at hs
    · exact hinv.indexed s' (Or.inr hs)

theorem versioned_get_control_file_inv (paths : VcpkgPaths)
    (st st' : VersionedPortfileProviderImpl) (s : VersionSpec)
    (r : ExpectedS SourceControlFileLocation) (l : List Call) (hinv : VersionedInv paths st)
    (h : VersionedPortfileProviderImpl.get_control_file paths st s = .done ((r, st'), l)) :
    VersionedInv paths st' := by
  obtain ⟨L, st1, l1, hgpv, hcases⟩ := versioned_get_control_file_done paths st st' s r l h
  have hinv1 := (get_port_versions_inv paths st st1 s.port_name L l1 hinv hgpv).1
  rcases hcases with ⟨loc, -, -, rfl, -⟩ | ⟨-, -, -, rfl, -⟩ |
    ⟨t, -, hgt, -, ⟨scf, hload, hn, -, rfl⟩ | ⟨-, rfl, -⟩⟩
  · exact hinv1
  · exact hinv1
  · exact hinv1.add_control s t scf hgt hload hn
  · exact hinv1

theorem VersionedPortfileProviderImpl.Reachable.versionedInv {paths : VcpkgPaths}
    {st : VersionedPortfileProviderImpl}
    (hr : VersionedPortfileProviderImpl.Reachable paths st) : VersionedInv paths st := by
  induction hr with
  | construct => exact VersionedInv.construct paths
  | get_port_versions st st' p L l _ h ih => exact (get_port_versions_inv paths st st' p L l ih h).1
  | get_control_file st st' s r l _ h ih => exact versioned_get_control_file_inv paths st st' s r l ih h

/-! ## C6: the version list of a port with a version database -/

/-- C6: for a port name `n` not yet in the versions cache whose version-database
file exists and parses to `entries`: when `entries` is not empty,
`get_port_versions(n)` returns exactly the specs `(n, e.version)` of the entries,
in the file's order, with the same length and every port name equal to `n`;
when `entries` is empty, `versions_cache.at(port)` finds no element and the call
leaves with `std::out_of_range` instead of returning the empty list. -/
theorem get_port_versions_from_database (paths : VcpkgPaths)
    (st : VersionedPortfileProviderImpl) (n : String) (entries : List VersionDbEntry)
    (hc : Map.find n st.versions_cache = none) (hex : db_exists paths n = true)
    (hparse : db_entries paths n = .ok entries) :
    (entries ≠ [] →
      ∃ st' l, VersionedPortfileProviderImpl.get_port_versions paths st n =
          .done ((entries.map (fun e => (⟨n, e.version⟩ : VersionSpec)), st'), l) ∧
        (entries.map (fun e => (⟨n, e.version⟩ : VersionSpec))).length = entries.length ∧
        ∀ s ∈ entries.map (fun e => (⟨n, e.version⟩ : VersionSpec)), s.port_name = n) ∧
    (entries = [] →
      VersionedPortfileProviderImpl.get_port_versions paths st n = .threw "std::out_of_range") := by
  have h := get_port_versions_db paths st n entries hc hex hparse
  constructor
  · intro he
    rw [if_neg he] at h
    refine ⟨_, _, h, by simp, ?_⟩
    intro s hs
    obtain ⟨e, -, rfl⟩ := List.mem_map.1 hs
    rfl
  · intro he
    rw [if_pos he] at h
    exact h

theorem get_port_versions_from_database_witness :
    Map.find "empty" VersionedPortfileProviderImpl.construct.versions_cache = none ∧
    db_exists demoPathsEmptyDb "empty" = true ∧
    db_entries demoPathsEmptyDb "empty" = .ok [] ∧
    VersionedPortfileProviderImpl.get_port_versions demoPathsEmptyDb
      VersionedPortfileProviderImpl.construct "empty" = .threw "std::out_of_range" :=
  ⟨rfl, rfl, rfl,
   (get_port_versions_from_database demoPathsEmptyDb VersionedPortfileProviderImpl.construct
     "empty" [] rfl rfl rfl).2 rfl⟩

/-! ## C7: a version that is not in the index -/

/-- C7, counterexample: the port `ghost` has no version-database file and the
registry has no definition for it, so no spec of `ghost` is in a version index;
`get_control_file` on a spec of `ghost` terminates the process in
`get_port_versions` instead of returning an error value. -/
theorem versioned_get_control_file_unknown_port_exits :
    db_exists demoPaths "ghost" = false ∧
    try_load_registry_port demoPaths "ghost" =
      .done (none, [Call.registry_for_port "ghost", Call.registry_get_baseline_version "ghost",
        Call.registry_get_port_entry "ghost"]) ∧
    VersionedPortfileProviderImpl.get_control_file demoPaths
      VersionedPortfileProviderImpl.construct ⟨"ghost", ⟨"1.0", 0⟩⟩ =
      .exit "Error: Could not find a definition for port ghost" := by
  refine ⟨rfl, rfl, rfl⟩

/-- C7, amended: in every reachable state, when the pre-populating
`get_port_versions(s.port_name)` call returns a version list that does not
contain `s`, `get_control_file(s)` returns the recoverable error value
`No git object SHA for entry ...`, does not terminate the process, and leaves
the caches as `get_port_versions` left them; and when the port is not in the
versions cache, has no version-database file and the registry yields no
definition for it, `get_control_file(s)` terminates the process. -/
theorem versioned_get_control_file_not_in_index (paths : VcpkgPaths)
    (st : VersionedPortfileProviderImpl) (s : VersionSpec)
    (hr : VersionedPortfileProviderImpl.Reachable paths st) :
    (∀ (L : List VersionSpec) (st1 : VersionedPortfileProviderImpl) (l1 : List Call),
      VersionedPortfileProviderImpl.get_port_versions paths st s.port_name =
        .done ((L, st1), l1) →
      s ∉ L →
      VersionedPortfileProviderImpl.get_control_file paths st s =
        .done ((.error ("Error: No git object SHA for entry " ++ s.port_name ++
          " at version " ++ paths.version_to_string s.version ++ "."), st1), l1)) ∧
    (Map.find s.port_name st.versions_cache = none → db_exists paths s.port_name = false →
      (try_load_registry_port paths s.port_name).Returns none →
      VersionedPortfileProviderImpl.get_control_file paths st s =
        .exit ("Error: Could not find a definition for port " ++ s.port_name)) := by
  constructor
  · intro L st1 l1 hgpv hs
    obtain ⟨hinv1, hL⟩ :=
      get_port_versions_inv paths st st1 s.port_name L l1 hr.versionedInv hgpv
    have hnone : Map.find s st1.control_cache = none ∧ Map.find s st1.git_tree_cache = none := by
      have key : ¬ ((Map.find s st1.control_cache).isSome ∨
          (Map.find s st1.git_tree_cache).isSome) := by
        intro h
        obtain ⟨L', hL', hmem⟩ := hinv1.indexed s h
        rw [hL] at hL'
        cases hL'
        exact hs hmem
      constructor
      · cases h : Map.find s st1.control_cache with
        | none => rfl
        | some x => exact absurd (Or.inl (by simp [h])) key
      · cases h : Map.find s st1.git_tree_cache with
        | none => rfl
        | some x => exact absurd (Or.inr (by simp [h])) key
    unfold VersionedPortfileProviderImpl.get_control_file
    rw [hgpv]
    simp [Eff.bind, Eff.pure, hnone.1, hnone.2]
  · intro hc hex hreg
    obtain ⟨lr, hreg⟩ := hreg
    unfold db_exists at hex
    unfold VersionedPortfileProviderImpl.get_control_file
      VersionedPortfileProviderImpl.get_port_versions
    simp [hc, get_versions_json_path, Eff.bind, Eff.pure, call, hex, hreg, exit_with_message]

theorem versioned_get_control_file_not_in_index_witness :
    VersionedPortfileProviderImpl.Reachable demoPaths VersionedPortfileProviderImpl.construct ∧
    VersionedPortfileProviderImpl.get_port_versions demoPaths
      VersionedPortfileProviderImpl.construct "foo" =
      .done (([⟨"foo", ⟨"1.2.0", 3⟩⟩], demoVersionedFoo),
        [Call.fs_exists "/vcpkg/port_versions/f-/foo.json",
         Call.parse_versions_file "foo" "/vcpkg/port_versions/f-/foo.json"]) ∧
    (⟨"foo", ⟨"9.9", 0⟩⟩ : VersionSpec) ∉ [(⟨"foo", ⟨"1.2.0", 3⟩⟩ : VersionSpec)] ∧
    VersionedPortfileProviderImpl.get_control_file demoPaths
      VersionedPortfileProviderImpl.construct ⟨"foo", ⟨"9.9", 0⟩⟩ =
      .done ((.error "Error: No git object SHA for entry foo at version 9.9.", demoVersionedFoo),
        [Call.fs_exists "/vcpkg/port_versions/f-/foo.json",
         Call.parse_versions_file "foo" "/vcpkg/port_versions/f-/foo.json"]) ∧
    VersionedPortfileProviderImpl.get_control_file demoPaths
      VersionedPortfileProviderImpl.construct ⟨"nope", ⟨"0.1", 0⟩⟩ =
      .exit "Error: Could not find a definition for port nope" :=
  ⟨.construct, rfl, by decide,
   (versioned_get_control_file_not_in_index demoPaths VersionedPortfileProviderImpl.construct
     ⟨"foo", ⟨"9.9", 0⟩⟩ .construct).1 [⟨"foo", ⟨"1.2.0", 3⟩⟩] demoVersionedFoo _ rfl
     (by decide),
   (versioned_get_control_file_not_in_index demoPaths VersionedPortfileProviderImpl.construct
     ⟨"nope", ⟨"0.1", 0⟩⟩ .construct).2 rfl rfl ⟨_, rfl⟩⟩

/-! ## C8 and C9: resolving a version listed in the version database -/

/-- For a port with a non-empty version database, `get_port_versions` returns,
requests no checkout, keeps the control cache, and leaves the git tree cache
giving each version the tree of its first entry. -/
theorem get_port_versions_of_db (paths : VcpkgPaths) (st : VersionedPortfileProviderImpl)
    (p : String) (entries : List VersionDbEntry) (hinv : VersionedInv paths st)
    (hex : db_exists paths p = true) (hparse : db_entries paths p = .ok entries)
    (he : entries ≠ []) :
    ∃ L st1 l0, VersionedPortfileProviderImpl.get_port_versions paths st p =
        .done ((L, st1), l0) ∧
      VersionedInv paths st1 ∧ Map.find p st1.versions_cache = some L ∧
      st1.control_cache = st.control_cache ∧
      l0.filter Call.is_git_checkout_port = [] ∧
      ∀ v, Map.find ⟨p, v⟩ st1.git_tree_cache = first_tree entries v := by
  have main : ∃ L st1 l0, VersionedPortfileProviderImpl.get_port_versions paths st p =
        .done ((L, st1), l0) ∧ st1.control_cache = st.control_cache ∧
        l0.filter Call.is_git_checkout_port = [] := by
    cases hc : Map.find p st.versions_cache with
    | some L => exact ⟨L, st, [], get_port_versions_cached paths st p L hc, rfl, rfl⟩
    | none =>
      have h := get_port_versions_db paths st p entries hc hex hparse
      rw [if_neg he] at h
      exact ⟨_, _, _, h, add_version_entries_control p entries st, rfl⟩
  obtain ⟨L, st1, l0, hgpv, hcc, hl0⟩ := main
  obtain ⟨hinv1, hL⟩ := get_port_versions_inv paths st st1 p L l0 hinv hgpv
  obtain ⟨entries', h1, -, h3⟩ := hinv1.versions p L hL hex
  rw [hparse] at h1
  cases h1
  exact ⟨L, st1, l0, hgpv, hinv1, hL, hcc, hl0, h3⟩

/-- C8, counterexample: the version database of `foo` lists the version
`1.2.0#3` with the git tree `abc123`, and the checkout of `abc123` loads a
control file declaring `foo`; but the database lists that version first with
the tree `old111`, and `git_tree_cache.emplace` keeps the first tree. Two
successive `get_control_file` calls on a fresh provider each request the
checkout of `old111`, never of `abc123`, and each return an error value: two
checkouts, and no cached location. -/
theorem versioned_get_control_file_first_tree_wins :
    db_exists demoPathsListedTwice "foo" = true ∧
    db_entries demoPathsListedTwice "foo" =
      .ok [⟨⟨"1.2.0", 3⟩, "old111"⟩, ⟨⟨"1.2.0", 3⟩, "abc123"⟩] ∧
    (⟨⟨"1.2.0", 3⟩, "abc123"⟩ : VersionDbEntry) ∈
      [(⟨⟨"1.2.0", 3⟩, "old111"⟩ : VersionDbEntry), ⟨⟨"1.2.0", 3⟩, "abc123"⟩] ∧
    demoPathsListedTwice.try_load_port (demoPathsListedTwice.git_checkout_port "foo" "abc123") =
      .ok (mkScf "foo" "1.2.0" 3) ∧
    VersionedPortfileProviderImpl.get_control_file demoPathsListedTwice
        VersionedPortfileProviderImpl.construct ⟨"foo", ⟨"1.2.0", 3⟩⟩ =
      .done ((.error "Error: Failed to load port foo from /git/foo/old111",
          demoVersionedListedTwice),
        [Call.fs_exists "/vcpkg/port_versions/f-/foo.json",
         Call.parse_versions_file "foo" "/vcpkg/port_versions/f-/foo.json",
         Call.git_checkout_port "foo" "old111", Call.try_load_port "/git/foo/old111"]) ∧
    VersionedPortfileProviderImpl.get_control_file demoPathsListedTwice
        demoVersionedListedTwice ⟨"foo", ⟨"1.2.0", 3⟩⟩ =
      .done ((.error "Error: Failed to load port foo from /git/foo/old111",
          demoVersionedListedTwice),
        [Call.git_checkout_port "foo" "old111", Call.try_load_port "/git/foo/old111"]) := by
  refine ⟨rfl, rfl, by decide, rfl, rfl, rfl⟩

/-- C8, amended: for a port `p` whose version database lists the version `v`,
the first entry listing `v` giving the git tree `t`, and whose checkout of `t`
loads a control file declaring `p`: from any reachable state in which the spec
`(p, v)` was not resolved before (a fresh provider included), two successive
`get_control_file` calls return the same location, which is the control cache
element of the spec, and the calls of both together request
`git_checkout_port` exactly once, for `p` and `t`. -/
theorem versioned_get_control_file_checks_out_once (paths : VcpkgPaths)
    (st : VersionedPortfileProviderImpl) (p : String) (v : VersionT) (t : String)
    (entries : List VersionDbEntry) (scf : SourceControlFile)
    (hr : VersionedPortfileProviderImpl.Reachable paths st)
    (hex : db_exists paths p = true) (hparse : db_entries paths p = .ok entries)
    (hlisted : first_tree entries v = some t)
    (hload : paths.try_load_port (paths.git_checkout_port p t) = .ok scf)
    (hname : scf.core_paragraph.name = p)
    (hnew : Map.find ⟨p, v⟩ st.control_cache = none) :
    ∃ st1 l1 l2,
      VersionedPortfileProviderImpl.get_control_file paths st ⟨p, v⟩ =
        .done ((.ok ⟨scf, paths.git_checkout_port p t⟩, st1), l1) ∧
      VersionedPortfileProviderImpl.get_control_file paths st1 ⟨p, v⟩ =
        .done ((.ok ⟨scf, paths.git_checkout_port p t⟩, st1), l2) ∧
      Map.find ⟨p, v⟩ st1.control_cache = some ⟨scf, paths.git_checkout_port p t⟩ ∧
      (l1 ++ l2).filter Call.is_git_checkout_port = [Call.git_checkout_port p t] := by
  have he : entries ≠ [] := by
    intro he
    subst he
    simp [first_tree] at hlisted
  obtain ⟨L, st0, l0, hgpv, hinv0, hL, hcc, hl0, hgt⟩ :=
    get_port_versions_of_db paths st p entries hr.versionedInv hex hparse he
  have hgt0 : Map.find ⟨p, v⟩ st0.git_tree_cache = some t := by rw [hgt v, hlisted]
  have hcc0 : Map.find ⟨p, v⟩ st0.control_cache = none := by rw [hcc, hnew]
  have hfirst : VersionedPortfileProviderImpl.get_control_file paths st ⟨p, v⟩ =
      .done ((.ok ⟨scf, paths.git_checkout_port p t⟩,
        { st0 with control_cache := st0.control_cache ++
          [(⟨p, v⟩, ⟨scf, paths.git_checkout_port p t⟩)] }),
        l0 ++ [Call.git_checkout_port p t, Call.try_load_port (paths.git_checkout_port p t)]) := by
    unfold VersionedPortfileProviderImpl.get_control_file
    simp only
    rw [hgpv]
    simp [Eff.bind, Eff.pure, call, hcc0, hgt0, hload, hname, Map.emplace]
  have hcc1 : Map.find (⟨p, v⟩ : VersionSpec) (st0.control_cache ++
      [(⟨p, v⟩, ⟨scf, paths.git_checkout_port p t⟩)]) =
      some ⟨scf, paths.git_checkout_port p t⟩ := by
    rw [Map.find_append, hcc0]
    simp [Map.find]
  have hsecond : VersionedPortfileProviderImpl.get_control_file paths
      { st0 with control_cache := st0.control_cache ++
        [(⟨p, v⟩, ⟨scf, paths.git_checkout_port p t⟩)] } ⟨p, v⟩ =
      .done ((.ok ⟨scf, paths.git_checkout_port p t⟩,
        { st0 with control_cache := st0.control_cache ++
          [(⟨p, v⟩, ⟨scf, paths.git_checkout_port p t⟩)] }), []) := by
    have hgpv2 : VersionedPortfileProviderImpl.get_port_versions paths
        { st0 with control_cache := st0.control_cache ++
          [(⟨p, v⟩, ⟨scf, paths.git_checkout_port p t⟩)] } p =
        .done ((L, { st0 with control_cache := st0.control_cache ++
          [(⟨p, v⟩, ⟨scf, paths.git_checkout_port p t⟩)] }), []) :=
      get_port_versions_cached paths _ p L hL
    unfold VersionedPortfileProviderImpl.get_control_file
    simp only
    rw [hgpv2]
    simp [Eff.bind, Eff.pure, hcc1]
  refine ⟨_, _, _, hfirst, hsecond, hcc1, ?_⟩
  simp [List.filter_append, hl0, Call.is_git_checkout_port]

theorem versioned_get_control_file_checks_out_once_witness :
    VersionedPortfileProviderImpl.Reachable demoPaths VersionedPortfileProviderImpl.construct ∧
    db_exists demoPaths "foo" = true ∧
    db_entries demoPaths "foo" = .ok [⟨⟨"1.2.0", 3⟩, "abc123"⟩] ∧
    demoPaths.try_load_port (demoPaths.git_checkout_port "foo" "abc123") =
      .ok (mkScf "foo" "1.2.0" 3) ∧
    (∃ st1 l1 l2,
      VersionedPortfileProviderImpl.get_control_file demoPaths
        VersionedPortfileProviderImpl.construct ⟨"foo", ⟨"1.2.0", 3⟩⟩ =
        .done ((.ok ⟨mkScf "foo" "1.2.0" 3, "/git/foo/abc123"⟩, st1), l1) ∧
      VersionedPortfileProviderImpl.get_control_file demoPaths st1 ⟨"foo", ⟨"1.2.0", 3⟩⟩ =
        .done ((.ok ⟨mkScf "foo" "1.2.0" 3, "/git/foo/abc123"⟩, st1), l2) ∧
      Map.find ⟨"foo", ⟨"1.2.0", 3⟩⟩ st1.control_cache =
        some ⟨mkScf "foo" "1.2.0" 3, "/git/foo/abc123"⟩ ∧
      (l1 ++ l2).filter Call.is_git_checkout_port = [Call.git_checkout_port "foo" "abc123"]) :=
  ⟨.construct, rfl, rfl, rfl,
   versioned_get_control_file_checks_out_once demoPaths VersionedPortfileProviderImpl.construct
     "foo" ⟨"1.2.0", 3⟩ "abc123" [⟨⟨"1.2.0", 3⟩, "abc123"⟩] (mkScf "foo" "1.2.0" 3)
     .construct rfl rfl rfl rfl rfl rfl⟩

/-- C9: for a spec `s` that the version database of its port lists, with the
git tree `t`, and whose checkout of `t` loads a control file declaring another
name: from any reachable state, `get_control_file(s)` returns an error value
(the process goes on) and `s` is not in the control cache afterwards. -/
theorem versioned_get_control_file_name_mismatch (paths : VcpkgPaths)
    (st : VersionedPortfileProviderImpl) (s : VersionSpec) (t : String)
    (entries : List VersionDbEntry) (scf : SourceControlFile)
    (hr : VersionedPortfileProviderImpl.Reachable paths st)
    (hex : db_exists paths s.port_name = true)
    (hparse : db_entries paths s.port_name = .ok entries)
    (hlisted : first_tree entries s.version = some t)
    (hload : paths.try_load_port (paths.git_checkout_port s.port_name t) = .ok scf)
    (hname : scf.core_paragraph.name ≠ s.port_name) :
    ∃ st1 l,
      VersionedPortfileProviderImpl.get_control_file paths st s =
        .done ((.error ("Error: Failed to load port from " ++
          paths.git_checkout_port s.port_name t ++ ": names did not match: '" ++ s.port_name ++
          "' != '" ++ scf.core_paragraph.name ++ "'"), st1), l) ∧
      Map.find s st1.control_cache = none := by
  have he : entries ≠ [] := by
    intro he
    subst he
    simp [first_tree] at hlisted
  obtain ⟨L, st0, l0, hgpv, hinv0, hL, hcc, hl0, hgt⟩ :=
    get_port_versions_of_db paths st s.port_name entries hr.versionedInv hex hparse he
  have hgt0 : Map.find s st0.git_tree_cache = some t := by
    have := hgt s.version
    rw [hlisted] at this
    exact this
  have hcc0 : Map.find s st0.control_cache = none := by
    cases hfind : Map.find s st0.control_cache with
    | none => rfl
    | some loc =>
      exfalso
      obtain ⟨entries', t', h1, h2, h3, h4⟩ := hinv0.control s loc hfind hex
      rw [hparse] at h1
      cases h1
      rw [hlisted] at h2
      cases h2
      rw [hload] at h3
      cases h3
      exact hname h4
  refine ⟨st0, l0 ++ [Call.git_checkout_port s.port_name t,
    Call.try_load_port (paths.git_checkout_port s.port_name t)], ?_, hcc0⟩
  unfold VersionedPortfileProviderImpl.get_control_file
  simp only
  rw [hgpv]
  simp [Eff.bind, Eff.pure, call, hcc0, hgt0, hload, hname]

theorem versioned_get_control_file_name_mismatch_witness :
    VersionedPortfileProviderImpl.Reachable demoPathsStale
      VersionedPortfileProviderImpl.construct ∧
    (∃ st1 l,
      VersionedPortfileProviderImpl.get_control_file demoPathsStale
        VersionedPortfileProviderImpl.construct ⟨"foo", ⟨"1.2.0", 3⟩⟩ =
        .done ((.error ("Error: Failed to load port from /git/foo/abc123: " ++
          "names did not match: 'foo' != 'foo-old'"), st1), l) ∧
      Map.find ⟨"foo", ⟨"1.2.0", 3⟩⟩ st1.control_cache = none) :=
  ⟨.construct,
   versioned_get_control_file_name_mismatch demoPathsStale
     VersionedPortfileProviderImpl.construct ⟨"foo", ⟨"1.2.0", 3⟩⟩ "abc123"
     [⟨⟨"1.2.0", 3⟩, "abc123"⟩] (mkScf "foo-old" "1.2.0" 3) .construct rfl rfl rfl rfl
     (by decide)⟩

/-! ## C13: overlay paths the constructor rejects -/

theorem construct_loop_exits (paths : VcpkgPaths) (bad : String)
    (hbad : overlay_path_rejected paths bad = true) :
    ∀ (overlay_ports_ : List String) (acc : List Path), bad ∈ overlay_ports_ →
      ∃ msg, PathsPortFileProvider.construct_loop paths overlay_ports_ acc = .exit msg := by
  intro overlay_ports_
  induction overlay_ports_ with
  | nil => intro acc h; simp at h
  | cons x rest ih =>
    intro acc hmem
    unfold overlay_path_rejected overlay_argument at hbad
    simp only [Bool.and_eq_true, decide_eq_true_eq] at hbad
    obtain ⟨hne, hrej⟩ := hbad
    unfold PathsPortFileProvider.construct_loop
    by_cases hx : x = ""
    · have hrest : bad ∈ rest := by
        rcases List.mem_cons.1 hmem with h | h
        · exact absurd (h.trans hx) hne
        · exact h
      simp only [hx, ne_eq, not_true_eq_false, if_false]
      exact ih acc hrest
    · simp only [ne_eq, hx, not_false_eq_true, if_true]
      cases hc : paths.canonical
          (if paths.is_absolute x = true then x else Path.join paths.original_cwd x) with
      | none => simp [Eff.bind, call, hc, exit_with_message]
      | some q =>
        cases hex : paths.fs_exists q with
        | false => simp [Eff.bind, call, hc, hex, check_exit]
        | true =>
          cases hdir : paths.is_directory q with
          | false => simp [Eff.bind, call, hc, hex, hdir, check_exit, Eff.pure]
          | true =>
            have hrest : bad ∈ rest := by
              rcases List.mem_cons.1 hmem with h | h
              · subst h
                rw [hc] at hrej
                simp [hex, hdir] at hrej
              · exact h
            obtain ⟨msg, hmsg⟩ := ih (acc ++ [q]) hrest
            exact ⟨msg, by simp [Eff.bind, call, hc, hex, hdir, check_exit, Eff.pure, hmsg]⟩

/-- C13, counterexample: the list holding only the empty path, which does not
exist on disk and is not a directory (neither as written nor under
`original_cwd`): the constructor skips it, by `if (!overlay_path.empty())`, and
produces a provider with no overlays, without any filesystem call. -/
theorem construct_skips_empty_overlay_path :
    demoPaths.fs_exists "" = false ∧ demoPaths.is_directory "" = false ∧
    demoPaths.fs_exists (overlay_argument demoPaths "") = false ∧
    demoPaths.is_directory (overlay_argument demoPaths "") = false ∧
    PathsPortFileProvider.construct demoPaths [""] = .done (freshProvider, []) := by
  decide

/-- C13, amended: for every list of configured overlay paths that contains a
non-empty path which does not exist on disk or is not a directory (its canonical
form cannot be computed, does not exist, or is not a directory), the
constructor terminates the process; it produces no provider. -/
theorem construct_exits_on_rejected_overlay (paths : VcpkgPaths)
    (overlay_ports_ : List String) (bad : String) (hmem : bad ∈ overlay_ports_)
    (hbad : overlay_path_rejected paths bad = true) :
    (∃ msg, PathsPortFileProvider.construct paths overlay_ports_ = .exit msg) ∧
    ∀ (p : PathsPortFileProvider) (l : List Call),
      PathsPortFileProvider.construct paths overlay_ports_ ≠ .done (p, l) := by
  obtain ⟨msg, hmsg⟩ := construct_loop_exits paths bad hbad overlay_ports_ [] hmem
  have h : PathsPortFileProvider.construct paths overlay_ports_ = .exit msg := by
    unfold PathsPortFileProvider.construct
    rw [hmsg]
    rfl
  refine ⟨⟨msg, h⟩, ?_⟩
  intro p l hp
  rw [h] at hp
  cases hp

theorem construct_exits_on_rejected_overlay_witness :
    "/nowhere" ∈ ["/ov/single", "/nowhere", "/ov/multi"] ∧
    overlay_path_rejected demoPaths "/nowhere" = true ∧
    (∃ msg, PathsPortFileProvider.construct demoPaths ["/ov/single", "/nowhere", "/ov/multi"] =
      .exit msg) ∧
    ∀ (p : PathsPortFileProvider) (l : List Call),
      PathsPortFileProvider.construct demoPaths ["/ov/single", "/nowhere", "/ov/multi"] ≠
        .done (p, l) :=
  ⟨by decide, by decide,
   construct_exits_on_rejected_overlay demoPaths ["/ov/single", "/nowhere", "/ov/multi"]
     "/nowhere" (by decide) (by decide)⟩

/-! ## C11: lookups that follow a lookup -/

theorem get_control_file_keeps_cached (paths : VcpkgPaths) (p p' : PathsPortFileProvider)
    (spec k : String) (v : SourceControlFileLocation) (r : ExpectedS SourceControlFileLocation)
    (l : List Call) (hk : Map.find k p.cache = some v)
    (h : PathsPortFileProvider.get_control_file paths p spec = .done ((r, p'), l)) :
    Map.find k p'.cache = some v := by
  unfold PathsPortFileProvider.get_control_file at h
  split at h
  · obtain ⟨h1, -⟩ := Eff.pure_done h
    cases h1
    exact hk
  · rename_i hnone
    obtain ⟨mp, l1, l2, -, h2, -⟩ := Eff.bind_done h
    obtain ⟨mp2, l3, l4, -, h3, -⟩ := Eff.bind_done h2
    split at h3
    · obtain ⟨l5, h4, -⟩ := Eff.call_bind_done h3
      split at h4
      · obtain ⟨h5, -⟩ := Eff.pure_done h4
        cases h5
        exact hk
      · obtain ⟨h5, -⟩ := Eff.pure_done h4
        cases h5
        simp only [Map.emplace_of_find_none _ _ _ hnone, Map.find_append, hk]
    · obtain ⟨h5, -⟩ := Eff.pure_done h3
      cases h5
      exact hk

theorem get_control_file_error_unchanged (paths : VcpkgPaths) (p p' : PathsPortFileProvider)
    (spec : String) (e : String) (l : List Call)
    (h : PathsPortFileProvider.get_control_file paths p spec = .done ((.error e, p'), l)) :
    p' = p := by
  unfold PathsPortFileProvider.get_control_file at h
  split at h
  · obtain ⟨h1, -⟩ := Eff.pure_done h
    cases h1
  · obtain ⟨mp, l1, l2, -, h2, -⟩ := Eff.bind_done h
    obtain ⟨mp2, l3, l4, -, h3, -⟩ := Eff.bind_done h2
    split at h3
    · obtain ⟨l5, h4, -⟩ := Eff.call_bind_done h3
      split at h4
      · obtain ⟨h5, -⟩ := Eff.pure_done h4
        cases h5
        rfl
      · obtain ⟨h5, -⟩ := Eff.pure_done h4
        cases h5
    · obtain ⟨h5, -⟩ := Eff.pure_done h3
      cases h5
      rfl

theorem PathsPortFileProvider.GetSteps.keeps_cached {paths : VcpkgPaths}
    {p p' : PathsPortFileProvider} (hsteps : PathsPortFileProvider.GetSteps paths p p')
    (k : String) (v : SourceControlFileLocation) (hk : Map.find k p.cache = some v) :
    Map.find k p'.cache = some v := by
  induction hsteps with
  | refl => exact hk
  | step p1 p2 spec r l _ h ih =>
    exact get_control_file_keeps_cached paths p1 p2 spec k v r l ih h

/-- C11, counterexample: the first lookup of `zlib` ends in a feature-flag
error and the first lookup of `nope` finds nothing; neither caches anything, so
the same lookup on the provider each returns runs the overlay and registry load
again, with the same calls. -/
theorem get_control_file_reloads_after_error :
    PathsPortFileProvider.get_control_file demoPaths demoProvider3 "zlib" =
      .done ((.error "zlib requires the manifests feature flag",
          { overlay_ports := ["/ov/zlib", "/ov/single", "/ov/multi"], cache := [] }),
        [Call.is_port_directory "/ov/zlib", Call.try_load_port "/ov/zlib",
         Call.check_against_feature_flags ⟨mkScf "zlib" "1.2" 0, "/ov/zlib"⟩]) ∧
    PathsPortFileProvider.get_control_file demoPaths
        { overlay_ports := ["/ov/zlib", "/ov/single", "/ov/multi"], cache := [] } "zlib" =
      .done ((.error "zlib requires the manifests feature flag",
          { overlay_ports := ["/ov/zlib", "/ov/single", "/ov/multi"], cache := [] }),
        [Call.is_port_directory "/ov/zlib", Call.try_load_port "/ov/zlib",
         Call.check_against_feature_flags ⟨mkScf "zlib" "1.2" 0, "/ov/zlib"⟩]) ∧
    PathsPortFileProvider.get_control_file demoPaths demoProvider "nope" =
      .done ((.error "Port definition not found",
          { overlay_ports := ["/ov/single", "/ov/multi"], cache := [] }),
        [Call.is_port_directory "/ov/single", Call.try_load_port "/ov/single",
         Call.is_port_directory "/ov/multi", Call.is_port_directory "/ov/multi/nope",
         Call.registry_for_port "nope", Call.registry_get_baseline_version "nope",
         Call.registry_get_port_entry "nope"]) ∧
    PathsPortFileProvider.get_control_file demoPaths
        { overlay_ports := ["/ov/single", "/ov/multi"], cache := [] } "nope" =
      .done ((.error "Port definition not found",
          { overlay_ports := ["/ov/single", "/ov/multi"], cache := [] }),
        [Call.is_port_directory "/ov/single", Call.try_load_port "/ov/single",
         Call.is_port_directory "/ov/multi", Call.is_port_directory "/ov/multi/nope",
         Call.registry_for_port "nope", Call.registry_get_baseline_version "nope",
         Call.registry_get_port_entry "nope"]) := by
  refine ⟨rfl, rfl, rfl, rfl⟩

/-- C11, amended: once `get_control_file(n)` has returned a control-file
location, after any sequence of further `get_control_file` calls on the
instance a repeated `get_control_file(n)` returns that same location from the
cache, leaves the provider unchanged and makes no collaborator call, so the
overlay and registry load for `n` is not performed again; a lookup that ends in
an error value (not found, or a feature-flag error) leaves the provider
unchanged, caches nothing, and the same lookup repeated runs the same calls
again. -/
theorem get_control_file_loads_once_when_found (paths : VcpkgPaths)
    (p : PathsPortFileProvider) (n : String) :
    (∀ (loc : SourceControlFileLocation) (p1 p2 : PathsPortFileProvider) (l : List Call),
      PathsPortFileProvider.get_control_file paths p n = .done ((.ok loc, p1), l) →
      PathsPortFileProvider.GetSteps paths p1 p2 →
      PathsPortFileProvider.get_control_file paths p2 n = .done ((.ok loc, p2), [])) ∧
    (∀ (e : String) (p1 : PathsPortFileProvider) (l : List Call),
      PathsPortFileProvider.get_control_file paths p n = .done ((.error e, p1), l) →
      p1 = p ∧
      PathsPortFileProvider.get_control_file paths p1 n = .done ((.error e, p1), l)) := by
  constructor
  · intro loc p1 p2 l h hsteps
    have h1 := PathsPortFileProvider.get_control_file_ok_cached paths p p1 n loc l h
    exact PathsPortFileProvider.get_control_file_of_cached paths p2 n loc
      (hsteps.keeps_cached n loc h1)
  · intro e p1 l h
    have hp := get_control_file_error_unchanged paths p p1 n e l h
    subst hp
    exact ⟨rfl, h⟩

theorem get_control_file_loads_once_when_found_witness :
    PathsPortFileProvider.get_control_file demoPaths demoProvider "bar" =
      .done ((.ok barRegistry, demoProviderBar),
        [Call.is_port_directory "/ov/single", Call.try_load_port "/ov/single",
         Call.is_port_directory "/ov/multi", Call.is_port_directory "/ov/multi/bar",
         Call.registry_for_port "bar", Call.registry_get_baseline_version "bar",
         Call.registry_get_port_entry "bar",
         Call.entry_get_port_directory "bar" ⟨"1.0", 0⟩,
         Call.try_load_port "/vcpkg/ports/bar",
         Call.check_against_feature_flags barRegistry]) ∧
    PathsPortFileProvider.GetSteps demoPaths demoProviderBar demoProviderBarFoo ∧
    PathsPortFileProvider.get_control_file demoPaths demoProviderBarFoo "bar" =
      .done ((.ok barRegistry, demoProviderBarFoo), []) :=
  have hsteps : PathsPortFileProvider.GetSteps demoPaths demoProviderBar demoProviderBarFoo :=
    .step demoProviderBar demoProviderBarFoo demoProviderBarFoo "nope"
      (.error "Port definition not found")
      [Call.is_port_directory "/ov/single", Call.try_load_port "/ov/single",
       Call.is_port_directory "/ov/multi", Call.is_port_directory "/ov/multi/nope",
       Call.registry_for_port "nope", Call.registry_get_baseline_version "nope",
       Call.registry_get_port_entry "nope"]
      (.step demoProviderBar demoProviderBar demoProviderBarFoo "foo" (.ok fooOverlay)
        [Call.is_port_directory "/ov/single", Call.try_load_port "/ov/single",
         Call.check_against_feature_flags fooOverlay]
        (.refl demoProviderBar) rfl)
      rfl
  ⟨rfl, hsteps,
   (get_control_file_loads_once_when_found demoPaths demoProvider "bar").1 barRegistry
     demoProviderBar demoProviderBarFoo _ rfl hsteps⟩

/-! ## C12: the cached version list of a port -/

theorem get_port_versions_returns_cached (paths : VcpkgPaths)
    (st st' : VersionedPortfileProviderImpl) (n : String) (L : List VersionSpec)
    (l : List Call)
    (h : VersionedPortfileProviderImpl.get_port_versions paths st n = .done ((L, st'), l)) :
    Map.find n st'.versions_cache = some L := by
  rcases get_port_versions_done paths st st' n L l h with
    ⟨hc, rfl, -⟩ | ⟨hc, -, entries, -, he, rfl, rfl, -⟩ | ⟨hc, -, q, lr, -, -, rfl, rfl⟩
  · exact hc
  · rw [add_version_entries_versions_self, hc]
    simp [he]
  · simp only [Map.find_append, hc, Map.find, if_true]

theorem get_port_versions_keeps_versions (paths : VcpkgPaths)
    (st st' : VersionedPortfileProviderImpl) (n m : String) (L L' : List VersionSpec)
    (l : List Call) (hn : Map.find n st.versions_cache = some L)
    (h : VersionedPortfileProviderImpl.get_port_versions paths st m = .done ((L', st'), l)) :
    Map.find n st'.versions_cache = some L := by
  rcases get_port_versions_done paths st st' m L' l h with
    ⟨-, rfl, -⟩ | ⟨hc, -, entries, -, -, -, rfl, -⟩ | ⟨hc, -, q, lr, -, -, -, rfl⟩
  · exact hn
  · have hne : m ≠ n := by
      intro hmn
      rw [hmn, hn] at hc
      cases hc
    rw [add_version_entries_versions_of_ne m n hne]
    exact hn
  · simp only [Map.find_append, hn]

theorem versioned_get_control_file_keeps_versions (paths : VcpkgPaths)
    (st st' : VersionedPortfileProviderImpl) (n : String) (s : VersionSpec)
    (L : List VersionSpec) (r : ExpectedS SourceControlFileLocation) (l : List Call)
    (hn : Map.find n st.versions_cache = some L)
    (h : VersionedPortfileProviderImpl.get_control_file paths st s = .done ((r, st'), l)) :
    Map.find n st'.versions_cache = some L := by
  obtain ⟨L1, st1, l1, hgpv, hcases⟩ := versioned_get_control_file_done paths st st' s r l h
  have h1 := get_port_versions_keeps_versions paths st st1 n s.port_name L L1 l1 hn hgpv
  rcases hcases with ⟨loc, -, -, rfl, -⟩ | ⟨-, -, -, rfl, -⟩ |
    ⟨t, -, -, -, ⟨scf, -, -, -, rfl⟩ | ⟨-, rfl, -⟩⟩
  · exact h1
  · exact h1
  · exact h1
  · exact h1

theorem VersionedPortfileProviderImpl.Later.keeps_versions {paths : VcpkgPaths}
    {st st' : VersionedPortfileProviderImpl}
    (hlater : VersionedPortfileProviderImpl.Later paths st st') (n : String)
    (L : List VersionSpec) (hn : Map.find n st.versions_cache = some L) :
    Map.find n st'.versions_cache = some L := by
  induction hlater with
  | refl => exact hn
  | get_port_versions st1 st2 m L' l _ h ih =>
    exact get_port_versions_keeps_versions paths st1 st2 n m L L' l ih h
  | get_control_file st1 st2 s r l _ h ih =>
    exact versioned_get_control_file_keeps_versions paths st1 st2 n s L r l ih h

/-- C12: once `get_port_versions(n)` has returned the list `L`, after any
sequence of later `get_port_versions` and `get_control_file` calls on the
instance, for any names and specs, the versions cache still holds `L` for `n`,
and a repeated `get_port_versions(n)` returns `L`, leaves the provider
unchanged and makes no collaborator call: the version-database file is not
read and the registry is not queried again. -/
theorem get_port_versions_list_frozen (paths : VcpkgPaths)
    (st st1 st2 : VersionedPortfileProviderImpl) (n : String) (L : List VersionSpec)
    (l : List Call)
    (h : VersionedPortfileProviderImpl.get_port_versions paths st n = .done ((L, st1), l))
    (hlater : VersionedPortfileProviderImpl.Later paths st1 st2) :
    Map.find n st1.versions_cache = some L ∧ Map.find n st2.versions_cache = some L ∧
    VersionedPortfileProviderImpl.get_port_versions paths st2 n = .done ((L, st2), []) := by
  have h1 := get_port_versions_returns_cached paths st st1 n L l h
  have h2 := hlater.keeps_versions n L h1
  exact ⟨h1, h2, get_port_versions_cached paths st2 n L h2⟩

theorem get_port_versions_list_frozen_witness :
    VersionedPortfileProviderImpl.get_port_versions demoPaths
      VersionedPortfileProviderImpl.construct "foo" =
      .done (([⟨"foo", ⟨"1.2.0", 3⟩⟩], demoVersionedFoo),
        [Call.fs_exists "/vcpkg/port_versions/f-/foo.json",
         Call.parse_versions_file "foo" "/vcpkg/port_versions/f-/foo.json"]) ∧
    VersionedPortfileProviderImpl.Later demoPaths demoVersionedFoo demoVersionedFooBar ∧
    Map.find "foo" demoVersionedFoo.versions_cache = some [⟨"foo", ⟨"1.2.0", 3⟩⟩] ∧
    Map.find "foo" demoVersionedFooBar.versions_cache = some [⟨"foo", ⟨"1.2.0", 3⟩⟩] ∧
    VersionedPortfileProviderImpl.get_port_versions demoPaths demoVersionedFooBar "foo" =
      .done (([⟨"foo", ⟨"1.2.0", 3⟩⟩], demoVersionedFooBar), []) :=
  have hlater : VersionedPortfileProviderImpl.Later demoPaths demoVersionedFoo
      demoVersionedFooBar :=
    .get_port_versions demoVersionedFoo demoVersionedFooLoaded demoVersionedFooBar "bar"
      [⟨"bar", ⟨"1.0", 0⟩⟩]
      [Call.fs_exists "/vcpkg/port_versions/b-/bar.json", Call.registry_for_port "bar",
       Call.registry_get_baseline_version "bar", Call.registry_get_port_entry "bar",
       Call.entry_get_port_directory "bar" ⟨"1.0", 0⟩, Call.try_load_port "/vcpkg/ports/bar",
       Call.check_against_feature_flags barRegistry]
      (.get_control_file demoVersionedFoo demoVersionedFoo demoVersionedFooLoaded
        ⟨"foo", ⟨"1.2.0", 3⟩⟩ (.ok ⟨mkScf "foo" "1.2.0" 3, "/git/foo/abc123"⟩)
        [Call.git_checkout_port "foo" "abc123", Call.try_load_port "/git/foo/abc123"]
        (.refl demoVersionedFoo) rfl)
      rfl
  ⟨rfl, hlater,
   get_port_versions_list_frozen demoPaths VersionedPortfileProviderImpl.construct
     demoVersionedFoo demoVersionedFooBar "foo" [⟨"foo", ⟨"1.2.0", 3⟩⟩] _ rfl hlater⟩

end vcpkg
